import Mathlib

/-!
Verification of the keyhole-py analysis engine against its specification.

The definitions below are a shallow embedding of the Python sources:
`src/enhanced_analysis.py` (index analysis passes, fragmentation metrics,
document structure analysis, cluster health evaluation) and
`src/cluster_stats.py` (per-collection stats collection and the enhanced
analysis pipeline).  Python dictionaries with ordered keys are embedded as
association lists, in-place mutation of the index list is embedded as
state passing over `List DetailedIndex`, machine reals are embedded as
exact rationals, and fallible client calls are embedded with `Except`.
-/

/-- Python `"sep".join(parts)` on a list of strings. -/
def joinSep (sep : String) : List String → String
  | [] => ""
  | [s] => s
  | s :: rest => s ++ sep ++ joinSep sep rest

/-- Character-level worker for `pyReplace`, with explicit fuel so that the
kernel can evaluate it.  Scans left to right; whenever `pat` is a prefix of
the remaining input it emits `rep` and skips `pat`, exactly like Python
`str.replace` with a non-empty pattern. -/
def pyReplaceAux (pat rep : List Char) : Nat → List Char → List Char
  | 0, s => s
  | _ + 1, [] => []
  | fuel + 1, c :: cs =>
    if pat ≠ [] ∧ pat.isPrefixOf (c :: cs) then
      rep ++ pyReplaceAux pat rep fuel ((c :: cs).drop pat.length)
    else
      c :: pyReplaceAux pat rep fuel cs

/-- Python `s.replace(pat, rep)` (non-overlapping, left to right). -/
def pyReplace (s pat rep : String) : String :=
  String.mk (pyReplaceAux pat.data rep.data (s.data.length + 1) s.data)

/-- Python `s.startswith(pre)`. -/
def pyStartsWith (s pre : String) : Bool :=
  pre.data.isPrefixOf s.data

/-- Embedding of `DetailedIndex` from `enhanced_analysis.py`.  The key is the
ordered field-to-direction map of the raw index definition; dictionaries that
the code only tests for truthiness (`partial_filter_expression`, `collation`,
`weights`) are kept as association lists so that truthiness is emptiness. -/
structure DetailedIndex where
  name : String
  key : List (String × Int)
  keyString : String
  fields : List String
  effectiveKey : String
  unique : Bool
  sparse : Bool
  background : Bool
  partialFilterExpression : List (String × Int)
  collation : List (String × Int)
  expireAfterSeconds : Int
  weights : List (String × Int)
  version : Int
  isShardKey : Bool
  isDuplicate : Bool
  totalOps : Int
  recommendation : String
  issues : List String
deriving DecidableEq

/-- Key string built by `_create_detailed_index`:
`"{" + ", ".join(f"{field}: {direction}") + "}"`.  Note that there is no
space between the braces and the first/last field. -/
def keyStringOf (key : List (String × Int)) : String :=
  "\x7b" ++ joinSep ", " (key.map (fun p => p.1 ++ ": " ++ toString p.2)) ++ "\x7d"

/-- Effective key built by `_create_detailed_index`:
`key_string.replace(": -1", ": 1")`. -/
def effectiveKeyOf (keyString : String) : String :=
  pyReplace keyString ": -1" ": 1"

/-- Literal `"{ _id: 1 }"` that `_check_duplicate_indexes` and
`_check_redundant_indexes` compare `key_string` against.  It has spaces
inside the braces, while `keyStringOf` never produces them. -/
def idOnlyKeyString : String := "\x7b _id: 1 \x7d"

/-- Raw index definition as returned by `list_indexes` (the fields that
`_create_detailed_index` reads). -/
structure RawIndex where
  name : String
  key : List (String × Int)
  unique : Bool
  sparse : Bool
  background : Bool
  partialFilterExpression : List (String × Int)
  collation : List (String × Int)
  expireAfterSeconds : Int
  weights : List (String × Int)
  version : Int

/-- Embedding of `_create_detailed_index`.  Usage counters are merged by
index name; an absent entry leaves `total_ops = 0`. -/
def createDetailedIndex (idx : RawIndex) (usage : List (String × Int)) : DetailedIndex :=
  let ks := keyStringOf idx.key
  { name := idx.name
    key := idx.key
    keyString := ks
    fields := idx.key.map Prod.fst
    effectiveKey := effectiveKeyOf ks
    unique := idx.unique
    sparse := idx.sparse
    background := idx.background
    partialFilterExpression := idx.partialFilterExpression
    collation := idx.collation
    expireAfterSeconds := idx.expireAfterSeconds
    weights := idx.weights
    version := idx.version
    isShardKey := false
    isDuplicate := false
    totalOps := match usage.find? (fun p => p.1 == idx.name) with
      | some p => p.2
      | none => 0
    recommendation := ""
    issues := [] }

/-- Issue fragments gathered by `_analyze_index_properties`, in source
order: short TTL, then unused index. -/
def issueFragments (x : DetailedIndex) : List String :=
  (if x.expireAfterSeconds > 0 ∧ x.expireAfterSeconds < 60 then
    ["TTL index with very short expiration (" ++ toString x.expireAfterSeconds ++ "s)"]
  else []) ++
  (if x.totalOps = 0 ∧ x.name ≠ "_id_" then ["Unused index"] else [])

/-- Recommendation fragments gathered by `_analyze_index_properties`, in
source order: TTL, partial filter, sparse, unused, compound, text weights. -/
def recFragments (x : DetailedIndex) : List String :=
  (if x.expireAfterSeconds > 0 ∧ x.expireAfterSeconds < 60 then
    ["Consider if TTL expiration is appropriate for your use case"]
  else []) ++
  (if x.partialFilterExpression ≠ [] then
    ["Partial index detected - ensure queries match the filter expression"]
  else []) ++
  (if x.sparse then
    ["Sparse index detected - ensure queries handle null values correctly"]
  else []) ++
  (if x.totalOps = 0 ∧ x.name ≠ "_id_" then
    ["Consider dropping unused indexes to improve write performance"]
  else []) ++
  (if x.fields.length > 1 then
    ["Compound index - ensure optimal field ordering (equality before range)"]
  else []) ++
  (if x.weights ≠ [] then
    ["Text index detected - monitor performance for text search queries"]
  else [])

/-- Embedding of `_analyze_index_properties`.  The shard-key check always
sets `is_shard_key = False` (the config-database lookup is skipped in the
source).  Existing issues are preserved and new ones appended unless already
present; an existing non-empty recommendation is preserved and the newly
joined fragments are appended after `"; "` unless they amount to
`"No issues detected"`. -/
def analyzeIndexProperties (x : DetailedIndex) : DetailedIndex :=
  let issues := issueFragments x
  let recommendations := recFragments x
  let allIssues := x.issues ++ issues.filter (fun i => !(x.issues.contains i))
  let newRec := if recommendations = [] then "No issues detected"
    else joinSep "; " recommendations
  let finalRec :=
    if x.recommendation ≠ "" then
      if newRec ≠ "No issues detected" then x.recommendation ++ "; " ++ newRec
      else x.recommendation
    else newRec
  { x with isShardKey := false, issues := allIssues, recommendation := finalRec }

/-- Issue message appended by `_check_duplicate_indexes`. -/
def dupMsg (other : String) : String := "Duplicate of index " ++ other

/-- Issue message appended by `_check_redundant_indexes`. -/
def redundantMsg (longer : String) : String :=
  "Redundant prefix of compound index " ++ longer

/-- Recommendation written by `_check_redundant_indexes`. -/
def dropRec (longer : String) : String :=
  "Consider dropping this index - " ++ longer ++ " can serve the same queries"

/-- Exemption test at the top of both pass loops:
`index.key_string == "{ _id: 1 }" or index.is_shard_key`. -/
def passExempt (x : DetailedIndex) : Bool :=
  x.keyString == idOnlyKeyString || x.isShardKey

/-- Mutation applied to each member of a duplicate pair: set the duplicate
flag and append the cross-reference issue. -/
def dupFlag (x : DetailedIndex) (other : String) : DetailedIndex :=
  { x with isDuplicate := true, issues := x.issues ++ [dupMsg other] }

/-- Body of the inner loop of `_check_duplicate_indexes` for the pair
`(i, j)`: if the effective keys are equal, both indexes are flagged
duplicate and each receives an issue naming the other. -/
def dupStep (i j : Nat) (l : List DetailedIndex) : List DetailedIndex :=
  match l[i]?, l[j]? with
  | some a, some b =>
    if a.effectiveKey = b.effectiveKey then
      (l.set i (dupFlag a b.name)).set j (dupFlag b a.name)
    else l
  | _, _ => l

/-- Outer-loop body of `_check_duplicate_indexes`: index `i` is skipped when
its key string is the literal `"{ _id: 1 }"` or it is marked as a shard key;
otherwise every later index is compared against it. -/
def dupOuterStep (l : List DetailedIndex) (i : Nat) : List DetailedIndex :=
  match l[i]? with
  | some a =>
    if passExempt a then l
    else (List.range' (i+1) (l.length - (i+1))).foldl (fun acc j => dupStep i j acc) l
  | none => l

/-- Embedding of `_check_duplicate_indexes` (in-place mutation turned into
state passing over the list). -/
def checkDuplicateIndexes (l : List DetailedIndex) : List DetailedIndex :=
  (List.range' 0 l.length).foldl dupOuterStep l

/-- Sign-insensitive direction comparison of `_check_redundant_indexes`: for
every shared field the directions must be equal or both of absolute value 1.
Field lookups mirror `index.key.get(field)`; both lookups succeed for
indexes whose `fields` list is derived from `key`. -/
def directionsMatch (a b : DetailedIndex) : Bool :=
  b.fields.all (fun f =>
    match (a.key.find? (fun p => p.1 == f)).map Prod.snd,
          (b.key.find? (fun p => p.1 == f)).map Prod.snd with
    | some d1, some d2 => d1 == d2 || (d1.natAbs == 1 && d2.natAbs == 1)
    | _, _ => false)

/-- Firing condition of `_check_redundant_indexes` for the ordered pair
`(i, j)` with longer candidate `a` at `i` and shorter candidate `b` at `j`:
`b` has strictly fewer fields, its field sequence is a prefix of the fields
of `a`, and the shared directions match sign-insensitively. -/
def redundantPairCond (a b : DetailedIndex) : Bool :=
  decide (b.fields.length < a.fields.length) &&
  b.fields == a.fields.take b.fields.length &&
  directionsMatch a b

/-- Mutation applied by `_check_redundant_indexes` to the shorter index of
a firing pair: the duplicate flag is set, an issue naming the longer index
is appended unless already present, and the recommendation is overwritten
with the drop suggestion. -/
def redFlag (b : DetailedIndex) (longerName : String) : DetailedIndex :=
  let newIssues := if b.issues.contains (redundantMsg longerName) then b.issues
    else b.issues ++ [redundantMsg longerName]
  { b with
      isDuplicate := true
      issues := newIssues
      recommendation := dropRec longerName }

/-- Body of the inner loop of `_check_redundant_indexes` for the pair
`(i, j)` with longer candidate at `i` and shorter candidate at `j`. -/
def redStep (i j : Nat) (l : List DetailedIndex) : List DetailedIndex :=
  match l[i]?, l[j]? with
  | some a, some b =>
    if i == j || passExempt b then l
    else if redundantPairCond a b then l.set j (redFlag b a.name)
    else l
  | _, _ => l

/-- Outer-loop body of `_check_redundant_indexes`: the longer candidate `i`
is skipped when exempt; otherwise every index is tested as a potential
redundant prefix of it. -/
def redOuterStep (l : List DetailedIndex) (i : Nat) : List DetailedIndex :=
  match l[i]? with
  | some a =>
    if passExempt a then l
    else (List.range' 0 l.length).foldl (fun acc j => redStep i j acc) l
  | none => l

/-- Embedding of `_check_redundant_indexes`. -/
def checkRedundantIndexes (l : List DetailedIndex) : List DetailedIndex :=
  (List.range' 0 l.length).foldl redOuterStep l

/-- Lexicographic comparison of character lists by code point, the order
Python uses for `str` comparison. -/
def charListLt : List Char → List Char → Bool
  | [], [] => false
  | [], _ :: _ => true
  | _ :: _, [] => false
  | a :: as, b :: bs =>
    if a.toNat < b.toNat then true
    else if b.toNat < a.toNat then false
    else charListLt as bs

/-- Python `s < t` on strings. -/
def pyStrLt (s t : String) : Bool := charListLt s.data t.data

/-- Stable insertion of an index into a list sorted by `effective_key`,
matching the stability of Python `list.sort(key=...)`. -/
def insertByEffectiveKey (x : DetailedIndex) : List DetailedIndex → List DetailedIndex
  | [] => [x]
  | y :: ys =>
    if pyStrLt y.effectiveKey x.effectiveKey then y :: insertByEffectiveKey x ys
    else x :: y :: ys

/-- Stable sort by `effective_key` (`detailed_indexes.sort(key=lambda x:
x.effective_key)`). -/
def sortByEffectiveKey : List DetailedIndex → List DetailedIndex
  | [] => []
  | x :: xs => insertByEffectiveKey x (sortByEffectiveKey xs)

/-- Embedding of `analyze_collection_indexes`: build a detailed index per
raw definition, run the property pass on each, sort by effective key, run
the duplicate pass and the redundancy pass, then run the property pass on
every index a second time. -/
def analyzeCollectionIndexes (raw : List RawIndex) (usage : List (String × Int)) :
    List DetailedIndex :=
  let detailed := raw.map (fun r => analyzeIndexProperties (createDetailedIndex r usage))
  let sorted := sortByEffectiveKey detailed
  let afterDup := checkDuplicateIndexes sorted
  let afterRed := checkRedundantIndexes afterDup
  afterRed.map analyzeIndexProperties


/-- Round a rational to the nearest integer, ties to even, mirroring Python
`round` on exact values. -/
def halfEvenInt (q : ℚ) : Int :=
  let n := ⌊q⌋
  let r := q - n
  if r < 1/2 then n
  else if 1/2 < r then n + 1
  else if Even n then n else n + 1

/-- Python `round(q, 2)` on exact values. -/
def round2 (q : ℚ) : ℚ := (halfEvenInt (q * 100) : ℚ) / 100

/-- Result record of `calculate_fragmentation`. -/
structure FragMetrics where
  fragmentationPercentage : ℚ
  storageEfficiency : ℚ
  wastedSpaceBytes : Int
  fragmentationLevel : String
deriving DecidableEq

/-- Fragmentation level thresholds of `calculate_fragmentation`, applied to
the unrounded percentage. -/
def fragLevelOf (fragPct : ℚ) : String :=
  if fragPct < 10 then "low"
  else if fragPct < 25 then "medium"
  else if fragPct < 50 then "high"
  else "critical"

/-- Embedding of `calculate_fragmentation` with real arithmetic carried out
exactly over the rationals. -/
def calculateFragmentation (storageSize dataSize : Int) : FragMetrics :=
  if storageSize ≤ 0 then
    { fragmentationPercentage := 0
      storageEfficiency := 100
      wastedSpaceBytes := 0
      fragmentationLevel := "unknown" }
  else if storageSize < dataSize then
    { fragmentationPercentage := 0
      storageEfficiency := round2 (((dataSize : ℚ) / (storageSize : ℚ)) * 100)
      wastedSpaceBytes := 0
      fragmentationLevel := "compressed" }
  else
    let wastedSpace := storageSize - dataSize
    let fragPct : ℚ := ((wastedSpace : ℚ) / (storageSize : ℚ)) * 100
    let eff : ℚ := ((dataSize : ℚ) / (storageSize : ℚ)) * 100
    { fragmentationPercentage := round2 fragPct
      storageEfficiency := round2 eff
      wastedSpaceBytes := wastedSpace
      fragmentationLevel := fragLevelOf fragPct }

/-- Value of one `opcounters` entry in a server status document: a number, a
nested counter group (such as `opcountersRepl`) whose numeric leaves are
summed, or a non-numeric value that is ignored. -/
inductive CtrLeaf where
  | num : Int → CtrLeaf
  | other : CtrLeaf
deriving DecidableEq

/-- Top-level `opcounters` entry. -/
inductive CtrEntry where
  | num : Int → CtrEntry
  | group : List (String × CtrLeaf) → CtrEntry
  | other : CtrEntry
deriving DecidableEq

/-- Sum of the numeric leaves of a counter group. -/
def groupSum (g : List (String × CtrLeaf)) : Int :=
  g.foldl (fun acc p => match p.2 with | CtrLeaf.num v => acc + v | CtrLeaf.other => acc) 0

/-- Total operation count over all `opcounters` entries, flattening nested
groups, as in `analyze_cluster_health`. -/
def totalOpsOf (ops : List (String × CtrEntry)) : Int :=
  ops.foldl (fun acc p => match p.2 with
    | CtrEntry.num v => acc + v
    | CtrEntry.group g => acc + groupSum g
    | CtrEntry.other => acc) 0

/-- Delete-operation count: `opcounters.get('delete', 0)`, with a nested
group summed and a non-numeric value treated as 0. -/
def deleteOpsOf (ops : List (String × CtrEntry)) : Int :=
  match (ops.find? (fun p => p.1 == "delete")).map Prod.snd with
  | some (CtrEntry.num v) => v
  | some (CtrEntry.group g) => groupSum g
  | some CtrEntry.other => 0
  | none => 0

/-- Server status fields read by `analyze_cluster_health`, after the
defensive `.get(..., 0)` destructuring (absent keys appear as 0 or as an
empty list). -/
structure ServerStatusDoc where
  memResident : Int
  memVirtual : Int
  connectionsCurrent : Int
  connectionsAvailable : Int
  opcounters : List (String × CtrEntry)
deriving DecidableEq

/-- Structure-analysis fields of one collection that the health evaluator
reads. -/
structure StructLike where
  maxNestingDepth : Int
  maxArraySize : Int
deriving DecidableEq

/-- Per-collection input of the health evaluator (`collections_data`
elements): namespace string, optional structure analysis, index count. -/
structure CollHealthInput where
  nsName : String
  structureAnalysis : Option StructLike
  nindexes : Int
deriving DecidableEq

/-- Render a ratio as a percentage with one decimal digit, mirroring the
`f"{ratio*100:.1f}%"` formatting on exact values. -/
def fmtPct1 (ratio : ℚ) : String :=
  let t := halfEvenInt (ratio * 100 * 10)
  toString (t / 10) ++ "." ++ toString ((t % 10).natAbs)

/-- Health report assembled by `analyze_cluster_health`.  The metrics
dictionary is `none` on the error path, where the source leaves it empty. -/
structure HealthReport where
  overallHealth : String
  issues : List String
  recommendations : List String
  metricsMemoryUsageMb : Option Int
  metricsCurrentConnections : Option Int
  metricsTotalOperations : Option Int
deriving DecidableEq

/-- Per-collection issue/recommendation pairs appended by
`analyze_cluster_health` for one collection, in source order: deep nesting,
large arrays, too many indexes. -/
def collChecks (c : CollHealthInput) : List (String × String) :=
  (match c.structureAnalysis with
   | some sa =>
     (if sa.maxNestingDepth > 6 then
       [("Deep nesting detected in " ++ c.nsName ++ " (depth: " ++
           toString sa.maxNestingDepth ++ ")",
         "Consider denormalizing collection " ++ c.nsName)]
      else []) ++
     (if sa.maxArraySize > 1000 then
       [("Large array detected in " ++ c.nsName ++ " (" ++
           toString sa.maxArraySize ++ " items)",
         "Consider splitting large arrays in collection " ++ c.nsName)]
      else [])
   | none => []) ++
  (if c.nindexes > 10 then
    [("Too many indexes in " ++ c.nsName ++ " (" ++ toString c.nindexes ++ " indexes)",
      "Review and remove unused/redundant indexes in " ++ c.nsName)]
   else [])

/-- Issue/recommendation pairs accumulated by the success path of
`analyze_cluster_health`, in source order: memory pressure, connection
pressure, per-collection checks, delete-ratio check. -/
def healthPairs (ss : ServerStatusDoc)
    (collectionsData : Option (List CollHealthInput)) : List (String × String) :=
  (if ss.memVirtual > 0 ∧ ss.memResident > 0 ∧
      (ss.memResident : ℚ) / (ss.memVirtual : ℚ) > 75/100 then
    [("High memory usage detected (" ++
        fmtPct1 ((ss.memResident : ℚ) / (ss.memVirtual : ℚ)) ++ "%)",
      "Consider increasing memory or optimizing queries")]
  else []) ++
  (if ss.connectionsCurrent + ss.connectionsAvailable > 0 ∧
      (ss.connectionsCurrent : ℚ) /
        ((ss.connectionsCurrent : ℚ) + (ss.connectionsAvailable : ℚ)) > 75/100 then
    [("High connection usage detected (" ++
        fmtPct1 ((ss.connectionsCurrent : ℚ) /
          ((ss.connectionsCurrent : ℚ) + (ss.connectionsAvailable : ℚ))) ++ "%)",
      "Consider connection pooling optimization")]
  else []) ++
  (match collectionsData with
   | some colls => colls.foldl (fun acc c => acc ++ collChecks c) []
   | none => []) ++
  (if totalOpsOf ss.opcounters > 0 ∧
      (deleteOpsOf ss.opcounters : ℚ) / (totalOpsOf ss.opcounters : ℚ) > 1/10 then
    [("High delete operation ratio detected", "Review data lifecycle management")]
  else [])

/-- Embedding of `analyze_cluster_health`.  The only failure point of the
source body is the `serverStatus` admin command, embedded as an `Except`
input; the `except` handler turns a failure into an `error` verdict whose
sole issue is the failure message.  On success the body is pure and total,
so the function never raises. -/
def analyzeClusterHealth (srv : Except String ServerStatusDoc)
    (collectionsData : Option (List CollHealthInput)) : HealthReport :=
  match srv with
  | Except.error e =>
    { overallHealth := "error"
      issues := ["Health check failed: " ++ e]
      recommendations := []
      metricsMemoryUsageMb := none
      metricsCurrentConnections := none
      metricsTotalOperations := none }
  | Except.ok ss =>
    let issues := (healthPairs ss collectionsData).map Prod.fst
    { overallHealth :=
        if issues ≠ [] then (if issues.length < 3 then "warning" else "critical")
        else "healthy"
      issues := issues
      recommendations := (healthPairs ss collectionsData).map Prod.snd
      metricsMemoryUsageMb := some ss.memResident
      metricsCurrentConnections := some ss.connectionsCurrent
      metricsTotalOperations := some (totalOpsOf ss.opcounters) }

/-- Cluster health as produced by `_perform_enhanced_analysis` in
`cluster_stats.py`: the source invokes `analyze_cluster_health()` with no
argument (so `collections_data` is `None`) and does so before the
per-collection enhancement loop fills in any structure analysis.  The
per-collection inputs of the snapshot are therefore never passed on. -/
def performEnhancedAnalysisHealth (srv : Except String ServerStatusDoc)
    (collections : List CollHealthInput) : HealthReport :=
  analyzeClusterHealth srv none

/-- Raw `collStats` fields read by `_collect_single_collection_stats`. -/
structure RawCollStats where
  count : Int
  size : Int
  storageSize : Int
  totalIndexSize : Int
  avgObjSize : ℚ
  capped : Bool
  sharded : Bool
  nindexes : Int
deriving DecidableEq

/-- Snapshot entry produced by `_collect_single_collection_stats` (the
fields filled in before the enhancement pass). -/
structure CollectionStats where
  name : String
  nsName : String
  count : Int
  size : Int
  storageSize : Int
  totalIndexSize : Int
  avgObjSize : ℚ
  capped : Bool
  sharded : Bool
  nindexes : Int
deriving DecidableEq

/-- Attribute table of the cluster client for the `is_view` capability.
`MongoDBClient` in `mongodb_client.py` defines no `is_view` method, so the
attribute is absent: calling it raises `AttributeError`. -/
def mongoDBClientIsView : Option (String → String → Bool) := none

/-- Embedding of `_collect_single_collection_stats`.  The body first calls
`self.client.is_view(db_name, collection_name)`: an absent attribute raises
`AttributeError`, which the blanket `except Exception` turns into `None`.
With a client that does provide `is_view`, a view yields `None`, a failing
stats call yields `None`, and a successful stats call yields one
`CollectionStats`. -/
def collectSingleCollectionStats (isViewAttr : Option (String → String → Bool))
    (statsResult : Except String RawCollStats) (dbName collName : String) :
    Option CollectionStats :=
  match isViewAttr with
  | none => none
  | some isView =>
    if isView dbName collName then none
    else
      match statsResult with
      | Except.error _ => none
      | Except.ok s =>
        some { name := collName
               nsName := dbName ++ "." ++ collName
               count := s.count
               size := s.size
               storageSize := s.storageSize
               totalIndexSize := s.totalIndexSize
               avgObjSize := s.avgObjSize
               capped := s.capped
               sharded := s.sharded
               nindexes := s.nindexes }

/-- Per-database collection pass of `_collect_single_database_stats`:
collection names prefixed `system.` are filtered out before tasks are
submitted, and each remaining name contributes the result of its collection
task (task completion order is not modeled; the aggregate membership is). -/
def collectCollectionsForDatabase (isViewAttr : Option (String → String → Bool))
    (statsFor : String → Except String RawCollStats) (dbName : String)
    (collNames : List String) : List CollectionStats :=
  (collNames.filter (fun n => !(pyStartsWith n "system."))).filterMap
    (fun n => collectSingleCollectionStats isViewAttr (statsFor n) dbName n)

/-!
Document values sampled from a collection: scalars, arrays and nested
documents.  Mutual lists keep every traversal structurally recursive.
-/
mutual
inductive BVal where
  | scalar : Int → BVal
  | arr : BArr → BVal
  | obj : BObj → BVal
inductive BArr where
  | nil : BArr
  | cons : BVal → BArr → BArr
inductive BObj where
  | nil : BObj
  | cons : String → BVal → BObj → BObj
end

/-- Number of entries of an embedded document (Python `len(obj)`). -/
def objLen : BObj → Nat
  | BObj.nil => 0
  | BObj.cons _ _ rest => objLen rest + 1

mutual
/-- Embedding of `_calculate_nesting_depth`.  A non-dict input returns the
current depth; a dict folds over its values, recursing with depth + 1 into
every value that is a dict or a list.  The recursion into a list value
returns immediately (a list is not a dict), so array elements are never
descended into. -/
def calcNestingDepth : BVal → Nat → Nat
  | BVal.obj kvs, cur => calcNestingDepthObj kvs cur cur
  | _, cur => cur
def calcNestingDepthObj : BObj → Nat → Nat → Nat
  | BObj.nil, _, acc => acc
  | BObj.cons _ v rest, cur, acc =>
    calcNestingDepthObj rest cur (match v with
      | BVal.obj _ => max acc (calcNestingDepth v (cur + 1))
      | BVal.arr _ => max acc (calcNestingDepth v (cur + 1))
      | _ => acc)
end

mutual
/-- Modelled from the spec: the nesting-depth rule stated in §4.3 and in the
claim, namely recursive depth through BOTH nested map and array values with
scalar leaves contributing depth 0 (each map or array level below the root
adds one).  This is the reference the code is compared against; the code
itself is `calcNestingDepth`. -/
def specNestingDepth : BVal → Nat → Nat
  | BVal.obj kvs, cur => specNestingDepthObj kvs cur cur
  | BVal.arr vs, cur => specNestingDepthArr vs cur cur
  | _, cur => cur
def specNestingDepthObj : BObj → Nat → Nat → Nat
  | BObj.nil, _, acc => acc
  | BObj.cons _ v rest, cur, acc =>
    specNestingDepthObj rest cur (match v with
      | BVal.obj _ => max acc (specNestingDepth v (cur + 1))
      | BVal.arr _ => max acc (specNestingDepth v (cur + 1))
      | _ => acc)
def specNestingDepthArr : BArr → Nat → Nat → Nat
  | BArr.nil, _, acc => acc
  | BArr.cons v rest, cur, acc =>
    specNestingDepthArr rest cur (match v with
      | BVal.obj _ => max acc (specNestingDepth v (cur + 1))
      | BVal.arr _ => max acc (specNestingDepth v (cur + 1))
      | _ => acc)
end

mutual
/-- Depth contributed below a value by `calcNestingDepth`: a nested dict
value adds one plus its own contribution, a list value adds exactly one,
and scalars add nothing.  Used to state the amended depth claim. -/
def depthContrib : BVal → Nat
  | BVal.obj kvs => depthContribObj kvs
  | _ => 0
def depthContribObj : BObj → Nat
  | BObj.nil => 0
  | BObj.cons _ v rest =>
    max (match v with
      | BVal.obj _ => 1 + depthContrib v
      | BVal.arr _ => 1
      | _ => 0) (depthContribObj rest)
end

/-- Field counts returned by `_extract_fields_alternative`. -/
structure FieldCounts where
  topLevel : Nat
  distinctFields : Nat
  arrayFields : Nat
  nestedFields : Nat
deriving DecidableEq

/-- Distinct field names across the dict elements of an array, mirroring
the set union in `_extract_distinct_array_fields` (each name counted once
however many elements carry it). -/
def distinctArrayFieldNamesObj : BObj → List String → List String
  | BObj.nil, acc => acc
  | BObj.cons k _ rest, acc =>
    distinctArrayFieldNamesObj rest (if acc.contains k then acc else acc ++ [k])

/-- Accumulate distinct field names over all array elements that are dicts. -/
def distinctArrayFieldNames : BArr → List String → List String
  | BArr.nil, acc => acc
  | BArr.cons v rest, acc =>
    distinctArrayFieldNames rest (match v with
      | BVal.obj kvs => distinctArrayFieldNamesObj kvs acc
      | _ => acc)

/-- Embedding of `_extract_distinct_array_fields`: 0 unless the array is
non-empty with a dict first element, otherwise the size of the union of
field names over its dict elements. -/
def extractDistinctArrayFields (a : BArr) : Nat :=
  match a with
  | BArr.nil => 0
  | BArr.cons (BVal.obj _) _ => (distinctArrayFieldNames a []).length
  | BArr.cons _ _ => 0

mutual
/-- Embedding of `_extract_fields_alternative`.  A dict starts with its own
entry count as both `top_level` and `distinct_fields`, then adds for every
nested dict its recursive distinct count (and nested count plus one), marks
every list value as one array field, and for a non-empty list whose first
element is a dict adds the distinct field-name count over its elements.  A
non-dict input yields all zeros. -/
def extractFieldsAlternative : BVal → FieldCounts
  | BVal.obj kvs =>
    extractFieldsAlternativeObj kvs
      { topLevel := objLen kvs
        distinctFields := objLen kvs
        arrayFields := 0
        nestedFields := 0 }
  | _ => { topLevel := 0, distinctFields := 0, arrayFields := 0, nestedFields := 0 }
/-- Fold over the entries of a dict for `extractFieldsAlternative`. -/
def extractFieldsAlternativeObj : BObj → FieldCounts → FieldCounts
  | BObj.nil, c => c
  | BObj.cons _ v rest, c =>
    extractFieldsAlternativeObj rest (match v with
      | BVal.obj _ =>
        let sub := extractFieldsAlternative v
        { c with nestedFields := c.nestedFields + 1 + sub.nestedFields
                 distinctFields := c.distinctFields + sub.distinctFields }
      | BVal.arr a =>
        let c1 := { c with arrayFields := c.arrayFields + 1 }
        (match a with
         | BArr.cons (BVal.obj _) _ =>
           { c1 with distinctFields := c1.distinctFields + extractDistinctArrayFields a }
         | _ => c1)
      | _ => c)
end

mutual
/-- Embedding of `_extract_queryable_paths`.  A dict contributes, for each
entry in order, the entry path itself, then for a nested dict its recursive
paths, and for a non-empty list the per-element paths: container elements
are recursed into under `path[i]` (a nested list returns nothing from the
recursion since it is not a dict), while primitive elements contribute the
indexed path `path[i]` itself.  A non-dict input yields no paths. -/
def extractQueryablePaths : BVal → String → List String
  | BVal.obj kvs, path => extractQueryablePathsObj kvs path
  | _, _ => []
/-- Fold over dict entries for `extractQueryablePaths`. -/
def extractQueryablePathsObj : BObj → String → List String
  | BObj.nil, _ => []
  | BObj.cons k v rest, path =>
    let fieldPath := if path == "" then k else path ++ "." ++ k
    (fieldPath :: (match v with
      | BVal.obj o => extractQueryablePathsObj o fieldPath
      | BVal.arr BArr.nil => []
      | BVal.arr a => extractQueryablePathsArr a fieldPath 0
      | _ => [])) ++ extractQueryablePathsObj rest path
/-- Fold over array elements for `extractQueryablePaths`, tracking the
element index.  A dict element is recursed into under the indexed path; a
list element is also recursed into by the source, but the recursion returns
no paths since a list is not a dict; a primitive element contributes the
indexed path itself. -/
def extractQueryablePathsArr : BArr → String → Nat → List String
  | BArr.nil, _, _ => []
  | BArr.cons item rest, fieldPath, i =>
    (match item with
      | BVal.obj o => extractQueryablePathsObj o (fieldPath ++ "[" ++ toString i ++ "]")
      | BVal.arr _ => []
      | _ => [fieldPath ++ "[" ++ toString i ++ "]"]) ++
    extractQueryablePathsArr rest fieldPath (i + 1)
end

/-- Example document of the distinct-field claim:
`\x7ba: \x7bb: 1\x7d, c: [\x7bx: 1\x7d, \x7by: 2\x7d]\x7d`. -/
def fieldCountDoc : BVal :=
  BVal.obj (BObj.cons "a" (BVal.obj (BObj.cons "b" (BVal.scalar 1) BObj.nil))
    (BObj.cons "c" (BVal.arr
      (BArr.cons (BVal.obj (BObj.cons "x" (BVal.scalar 1) BObj.nil))
        (BArr.cons (BVal.obj (BObj.cons "y" (BVal.scalar 2) BObj.nil)) BArr.nil)))
      BObj.nil))

/-- Example document of the nesting-depth claim: a map nested inside an
array element, `\x7ba: [\x7bb: \x7bc: 1\x7d\x7d]\x7d`. -/
def arrayNestedDoc : BVal :=
  BVal.obj (BObj.cons "a" (BVal.arr
    (BArr.cons (BVal.obj (BObj.cons "b"
      (BVal.obj (BObj.cons "c" (BVal.scalar 1) BObj.nil)) BObj.nil)) BArr.nil))
    BObj.nil)


/-- Plain raw index with only a name and a key, remaining properties at
their defaults. -/
def plainRawIndex (n : String) (k : List (String × Int)) : RawIndex :=
  { name := n
    key := k
    unique := false
    sparse := false
    background := false
    partialFilterExpression := []
    collation := []
    expireAfterSeconds := -1
    weights := []
    version := 2 }

/-- Detailed index built from a plain raw definition with a given usage
counter, as the analyzer builds it. -/
def plainIndex (n : String) (k : List (String × Int)) (ops : Int) : DetailedIndex :=
  createDetailedIndex (plainRawIndex n k) [(n, ops)]

/-- Index set of the `_id` exemption check: the `_id` index next to a
compound index extending it. -/
def c3RawIndexes : List RawIndex :=
  [plainRawIndex "_id_" [("_id", 1)], plainRawIndex "id_x_idx" [("_id", 1), ("x", 1)]]

/-- Usage counters of the `_id` exemption check (both indexes used, so the
unused-index heuristic stays quiet). -/
def c3Usage : List (String × Int) := [("_id_", 5), ("id_x_idx", 3)]

/-- Sparse index with usage, used to exercise the property pass twice. -/
def sparseIdx : DetailedIndex := plainIndex "sparse_like_idx" [("a", 1)] 7

/-- Sparse variant of `sparseIdx` (the property pass emits a sparse
recommendation fragment for it). -/
def sparseIdxReal : DetailedIndex := { sparseIdx with sparse := true }

/-- Pass-level duplicate pair: ascending and descending single-field
indexes on the same field share one effective key. -/
def c1List : List DetailedIndex :=
  [plainIndex "a_asc" [("a", 1)] 3, plainIndex "a_desc" [("a", -1)] 3]

/-- Pass-level redundancy triple: one short index that is a prefix of two
distinct longer compound indexes. -/
def c2List : List DetailedIndex :=
  [plainIndex "a_short" [("a", 1)] 4,
   plainIndex "ab_idx" [("a", 1), ("b", 1)] 4,
   plainIndex "ac_idx" [("a", 1), ("c", 1)] 4]

/-- Server status with no pressure signals: evaluated health issues can
only come from the per-collection checks. -/
def benignServerStatus : ServerStatusDoc :=
  { memResident := 0
    memVirtual := 0
    connectionsCurrent := 0
    connectionsAvailable := 0
    opcounters := [] }

/-- Collection whose structure analysis reports nesting depth 7 (above the
health threshold of 6). -/
def deepNestedColl : CollHealthInput :=
  { nsName := "app.users"
    structureAnalysis := some { maxNestingDepth := 7, maxArraySize := 0 }
    nindexes := 1 }

/-- Collection tripping exactly two health checks: deep nesting and a large
array. -/
def twoIssueColl : CollHealthInput :=
  { nsName := "app.events"
    structureAnalysis := some { maxNestingDepth := 8, maxArraySize := 2000 }
    nindexes := 2 }

/-- Fields of a detailed index that neither pass ever writes. -/
def sameCore (x y : DetailedIndex) : Prop :=
  y.name = x.name ∧ y.key = x.key ∧ y.keyString = x.keyString ∧
  y.fields = x.fields ∧ y.effectiveKey = x.effectiveKey ∧ y.isShardKey = x.isShardKey

/-- One pass step only preserves the core fields, can only set the
duplicate flag, and only appends to the issues list. -/
def Advances (x y : DetailedIndex) : Prop :=
  sameCore x y ∧ (x.isDuplicate = true → y.isDuplicate = true) ∧
  (∀ s, s ∈ x.issues → s ∈ y.issues)

/-- Relation between the list before and after any number of pass steps. -/
def PassInv (l l2 : List DetailedIndex) : Prop :=
  l2.length = l.length ∧
  ∀ (m : Nat) (x y : DetailedIndex), l[m]? = some x → l2[m]? = some y → Advances x y

/-- Condition under which the redundancy pass, run on the original list
`l0`, fires for the ordered pair `(i2, j)`: both present, distinct, neither
exempted by the pass, and the shorter-prefix condition holds. -/
def RedFires (l0 : List DetailedIndex) (i2 j : Nat) : Prop :=
  ∃ a2 b0, l0[i2]? = some a2 ∧ l0[j]? = some b0 ∧ i2 ≠ j ∧
    passExempt a2 = false ∧ passExempt b0 = false ∧ redundantPairCond a2 b0 = true

/-- State of the shorter index `j` once some redundancy pair has fired for
it: flagged duplicate, carrying the issue naming `na`, and carrying the
drop recommendation of the longer index of some firing pair. -/
def RedP (l0 : List DetailedIndex) (j : Nat) (na : String)
    (acc : List DetailedIndex) : Prop :=
  ∃ b2, acc[j]? = some b2 ∧ b2.isDuplicate = true ∧ redundantMsg na ∈ b2.issues ∧
    ∃ i2 a2, l0[i2]? = some a2 ∧ RedFires l0 i2 j ∧ b2.recommendation = dropRec a2.name

/-- Raw pipeline input with one short index that is a prefix of two longer
compound indexes. -/
def c2RawIndexes : List RawIndex :=
  [plainRawIndex "a_short" [("a", 1)],
   plainRawIndex "ab_idx" [("a", 1), ("b", 1)],
   plainRawIndex "ac_idx" [("a", 1), ("c", 1)]]

/-- Usage counters for the prefix triple (all used). -/
def c2Usage : List (String × Int) :=
  [("a_short", 4), ("ab_idx", 4), ("ac_idx", 4)]

/-- C9: the collection stats pass drops every collection.  The source calls
`self.client.is_view(...)` on a `MongoDBClient`, which defines no `is_view`
method; the resulting `AttributeError` is swallowed by the blanket
`except`, so `_collect_single_collection_stats` returns `None` for every
collection, view or not, and no `CollectionStats` ever reaches the
snapshot, contradicting the claim that a successful non-view collection
contributes exactly one entry. -/
theorem collect_collection_stats_never_contributes :
    (∀ (statsResult : Except String RawCollStats) (dbName collName : String),
      collectSingleCollectionStats mongoDBClientIsView statsResult dbName collName = none) ∧
    (∀ (statsFor : String → Except String RawCollStats) (dbName : String)
      (collNames : List String),
      collectCollectionsForDatabase mongoDBClientIsView statsFor dbName collNames = []) := by
  constructor
  · intro s db c; rfl
  · intro f db ns
    simp [collectCollectionsForDatabase, collectSingleCollectionStats, mongoDBClientIsView]

/-- C8: with `fastMode` false the health evaluation of the collect pipeline
sees no per-collection data.  `_perform_enhanced_analysis` invokes
`analyze_cluster_health()` with no argument and before the per-collection
enhancement loop, so a collection with nesting depth 7 contributes no issue
to the resulting cluster health, although `analyze_cluster_health` would
produce the namespace-naming issue and paired recommendation if the
snapshot collections were passed to it. -/
theorem enhanced_analysis_health_skips_collection_checks :
    performEnhancedAnalysisHealth (Except.ok benignServerStatus) [deepNestedColl] =
      { overallHealth := "healthy"
        issues := []
        recommendations := []
        metricsMemoryUsageMb := some 0
        metricsCurrentConnections := some 0
        metricsTotalOperations := some 0 } ∧
    (analyzeClusterHealth (Except.ok benignServerStatus) (some [deepNestedColl])).issues =
      ["Deep nesting detected in app.users (depth: 7)"] ∧
    (analyzeClusterHealth (Except.ok benignServerStatus)
        (some [deepNestedColl])).recommendations =
      ["Consider denormalizing collection app.users"] := by decide

/-- C5 counterexample: on the document with a map nested inside an array
element, the depth computed by the code is 1 while the recursive depth
through both map and array values described by the claim is 3 — the inner
map contributes no additional depth, so the claim fails at this input. -/
theorem nesting_depth_ignores_array_elements :
    calcNestingDepth arrayNestedDoc 0 = 1 ∧ specNestingDepth arrayNestedDoc 0 = 3 ∧
    ¬ calcNestingDepth arrayNestedDoc 0 = specNestingDepth arrayNestedDoc 0 := by decide

/-- C6 counterexample: for the document of the claim the queryable-path
count computed by the code is 5, not 6, and it does not differ from the
distinct-field count, so the claim fails at its own example document. -/
theorem queryable_path_count_not_six :
    ¬ ((extractQueryablePaths fieldCountDoc "").length = 6 ∧
       (extractFieldsAlternative fieldCountDoc).distinctFields ≠
         (extractQueryablePaths fieldCountDoc "").length) := by decide

/-- C6 amended: the distinct-field count of the example document is 5 and
its queryable paths are exactly `a`, `a.b`, `c`, `c[0].x`, `c[1].y` — array
elements that are containers contribute only their recursed paths, not a
bare indexed path — so the path count is 5 as well and the two counts
coincide on this document. -/
theorem field_and_path_counts_on_example :
    (extractFieldsAlternative fieldCountDoc).distinctFields = 5 ∧
    extractQueryablePaths fieldCountDoc "" = ["a", "a.b", "c", "c[0].x", "c[1].y"] ∧
    (extractQueryablePaths fieldCountDoc "").length = 5 ∧
    (extractFieldsAlternative fieldCountDoc).distinctFields =
      (extractQueryablePaths fieldCountDoc "").length := by decide

/-- C10 counterexample: a second run of the property pass on a sparse index
re-appends the sparse recommendation fragment, so the pass is not
idempotent on the recommendation string. -/
theorem property_pass_not_idempotent :
    analyzeIndexProperties (analyzeIndexProperties sparseIdxReal) ≠
      analyzeIndexProperties sparseIdxReal := by decide

/-- C3: the `_id`-only index is not exempt in practice.  Both passes compare
`key_string` against the literal `"\x7b _id: 1 \x7d"` with inner spaces,
but `_create_detailed_index` builds key strings without them, so the guard
never matches: on an index set consisting of the `_id` index and a compound
index extending it, the redundancy pass flags the `_id`-only index as a
duplicate with a redundancy issue naming the compound index. -/
theorem id_only_index_flagged_redundant :
    (analyzeCollectionIndexes c3RawIndexes c3Usage).map
        (fun x => (x.name, x.isDuplicate, decide (redundantMsg "id_x_idx" ∈ x.issues))) =
      [("id_x_idx", false, false), ("_id_", true, true)] := by decide

lemma round2_intCast (n : Int) : round2 (n : ℚ) = (n : ℚ) := by
  unfold round2 halfEvenInt
  have h1 : ((n : ℚ)) * 100 = ((100 * n : Int) : ℚ) := by push_cast; ring
  simp only [h1, Int.floor_intCast, sub_self]
  norm_num

lemma calcFrag_nonpos (s d : Int) (h : s ≤ 0) :
    calculateFragmentation s d =
      { fragmentationPercentage := 0
        storageEfficiency := 100
        wastedSpaceBytes := 0
        fragmentationLevel := "unknown" } := by
  simp [calculateFragmentation, h]

lemma calcFrag_compressed (s d : Int) (h1 : 0 < s) (h2 : s < d) :
    calculateFragmentation s d =
      { fragmentationPercentage := 0
        storageEfficiency := round2 (((d : ℚ) / (s : ℚ)) * 100)
        wastedSpaceBytes := 0
        fragmentationLevel := "compressed" } := by
  simp [calculateFragmentation, show ¬ s ≤ 0 by omega, h2]

lemma calcFrag_normal (s d : Int) (h1 : 0 < s) (h2 : d ≤ s) :
    calculateFragmentation s d =
      { fragmentationPercentage := round2 ((((s - d : Int) : ℚ) / (s : ℚ)) * 100)
        storageEfficiency := round2 (((d : ℚ) / (s : ℚ)) * 100)
        wastedSpaceBytes := s - d
        fragmentationLevel := fragLevelOf ((((s - d : Int) : ℚ) / (s : ℚ)) * 100) } := by
  simp [calculateFragmentation, show ¬ s ≤ 0 by omega, show ¬ s < d by omega]

/-- C4: `calculate_fragmentation` is a pure function of storage and data
size.  Non-positive storage yields `unknown` with 0 percent fragmentation,
100 percent efficiency and zero waste; storage smaller than data yields
`compressed` with efficiency `data/storage*100` and zero waste; otherwise
waste is `storage - data`, fragmentation `waste/storage*100`, efficiency
`data/storage*100`, with level `low` below 10, `medium` below 25, `high`
below 50 and `critical` otherwise.  The concrete examples of the claim
evaluate accordingly: (500, 600) gives 120.0 efficiency, (1000, 950) gives
waste 50 at 5.0 percent `low`, (1000, 600) gives 40 percent `high`. -/
theorem calculate_fragmentation_correct :
    (∀ s d : Int, s ≤ 0 → calculateFragmentation s d =
      { fragmentationPercentage := 0
        storageEfficiency := 100
        wastedSpaceBytes := 0
        fragmentationLevel := "unknown" }) ∧
    (∀ s d : Int, 0 < s → s < d → calculateFragmentation s d =
      { fragmentationPercentage := 0
        storageEfficiency := round2 (((d : ℚ) / (s : ℚ)) * 100)
        wastedSpaceBytes := 0
        fragmentationLevel := "compressed" }) ∧
    (∀ s d : Int, 0 < s → d ≤ s → calculateFragmentation s d =
      { fragmentationPercentage := round2 ((((s - d : Int) : ℚ) / (s : ℚ)) * 100)
        storageEfficiency := round2 (((d : ℚ) / (s : ℚ)) * 100)
        wastedSpaceBytes := s - d
        fragmentationLevel := fragLevelOf ((((s - d : Int) : ℚ) / (s : ℚ)) * 100) }) ∧
    calculateFragmentation 0 0 =
      { fragmentationPercentage := 0
        storageEfficiency := 100
        wastedSpaceBytes := 0
        fragmentationLevel := "unknown" } ∧
    calculateFragmentation 500 600 =
      { fragmentationPercentage := 0
        storageEfficiency := 120
        wastedSpaceBytes := 0
        fragmentationLevel := "compressed" } ∧
    calculateFragmentation 1000 950 =
      { fragmentationPercentage := 5
        storageEfficiency := 95
        wastedSpaceBytes := 50
        fragmentationLevel := "low" } ∧
    calculateFragmentation 1000 600 =
      { fragmentationPercentage := 40
        storageEfficiency := 60
        wastedSpaceBytes := 400
        fragmentationLevel := "high" } := by
  refine ⟨calcFrag_nonpos, calcFrag_compressed, calcFrag_normal, ?_, ?_, ?_, ?_⟩
  · exact calcFrag_nonpos 0 0 le_rfl
  · rw [calcFrag_compressed 500 600 (by norm_num) (by norm_num)]
    have e : ((600 : Int) : ℚ) / ((500 : Int) : ℚ) * 100 = ((120 : Int) : ℚ) := by norm_num
    rw [e, round2_intCast]
    norm_num
  · rw [calcFrag_normal 1000 950 (by norm_num) (by norm_num)]
    have e1 : (((1000 - 950 : Int)) : ℚ) / ((1000 : Int) : ℚ) * 100 = ((5 : Int) : ℚ) := by
      norm_num
    rw [e1, round2_intCast]
    have e2 : ((950 : Int) : ℚ) / ((1000 : Int) : ℚ) * 100 = ((95 : Int) : ℚ) := by norm_num
    rw [e2, round2_intCast]
    have e3 : fragLevelOf ((5 : Int) : ℚ) = "low" := by
      unfold fragLevelOf
      norm_num
    rw [e3]
    norm_num
  · rw [calcFrag_normal 1000 600 (by norm_num) (by norm_num)]
    have e1 : (((1000 - 600 : Int)) : ℚ) / ((1000 : Int) : ℚ) * 100 = ((40 : Int) : ℚ) := by
      norm_num
    rw [e1, round2_intCast]
    have e2 : ((600 : Int) : ℚ) / ((1000 : Int) : ℚ) * 100 = ((60 : Int) : ℚ) := by norm_num
    rw [e2, round2_intCast]
    have e3 : fragLevelOf ((40 : Int) : ℚ) = "high" := by
      unfold fragLevelOf
      norm_num
    rw [e3]
    norm_num

/-- C4 witness: the non-positive-storage case of the theorem applied at a
concrete input. -/
theorem calculate_fragmentation_correct_witness :
    calculateFragmentation (-5) 3 =
      { fragmentationPercentage := 0
        storageEfficiency := 100
        wastedSpaceBytes := 0
        fragmentationLevel := "unknown" } :=
  calculate_fragmentation_correct.1 (-5) 3 (by norm_num)

/-- C7: `analyze_cluster_health` maps issue counts to verdicts and converts
internal failures into an `error` report.  The embedding is a total
function, so evaluation never raises to the caller; a failed counter fetch
yields the verdict `error` with the failure message as the sole issue; on
success the verdict is `healthy` with no issues, `warning` with one or two,
and `critical` with three or more. -/
theorem cluster_health_verdict_mapping :
    (∀ (e : String) (colls : Option (List CollHealthInput)),
      (analyzeClusterHealth (Except.error e) colls).overallHealth = "error" ∧
      (analyzeClusterHealth (Except.error e) colls).issues =
        ["Health check failed: " ++ e]) ∧
    (∀ (ss : ServerStatusDoc) (colls : Option (List CollHealthInput)),
      ((analyzeClusterHealth (Except.ok ss) colls).issues.length = 0 →
        (analyzeClusterHealth (Except.ok ss) colls).overallHealth = "healthy") ∧
      (1 ≤ (analyzeClusterHealth (Except.ok ss) colls).issues.length ∧
          (analyzeClusterHealth (Except.ok ss) colls).issues.length ≤ 2 →
        (analyzeClusterHealth (Except.ok ss) colls).overallHealth = "warning") ∧
      (3 ≤ (analyzeClusterHealth (Except.ok ss) colls).issues.length →
        (analyzeClusterHealth (Except.ok ss) colls).overallHealth = "critical")) := by
  constructor
  · intro e colls
    exact ⟨rfl, rfl⟩
  · intro ss colls
    have hiss : (analyzeClusterHealth (Except.ok ss) colls).issues =
        (healthPairs ss colls).map Prod.fst := rfl
    have hov : (analyzeClusterHealth (Except.ok ss) colls).overallHealth =
        (if (healthPairs ss colls).map Prod.fst ≠ [] then
          (if ((healthPairs ss colls).map Prod.fst).length < 3 then "warning"
           else "critical")
         else "healthy") := rfl
    rw [hiss, hov]
    refine ⟨?_, ?_, ?_⟩
    · intro h0
      have : (healthPairs ss colls).map Prod.fst = [] := List.length_eq_zero.1 h0
      simp [this]
    · rintro ⟨h1, h2⟩
      have hne : (healthPairs ss colls).map Prod.fst ≠ [] := by
        intro h
        rw [h] at h1
        simp at h1
      rw [if_pos hne, if_pos (by omega)]
    · intro h3
      have hne : (healthPairs ss colls).map Prod.fst ≠ [] := by
        intro h
        rw [h] at h3
        simp at h3
      rw [if_pos hne, if_neg (by omega)]

/-- C7 witness: the warning case of the theorem applied at a server status
with no pressure signals and one collection tripping exactly two checks. -/
theorem cluster_health_verdict_mapping_witness :
    (analyzeClusterHealth (Except.ok benignServerStatus)
      (some [twoIssueColl])).overallHealth = "warning" :=
  (cluster_health_verdict_mapping.2 benignServerStatus (some [twoIssueColl])).2.1
    (by decide)

lemma natMaxAddLeft (a b c : Nat) : a + max b c = max (a + b) (a + c) := by
  rcases le_total b c with hbc | hbc
  · rw [max_eq_right hbc, max_eq_right (by omega : a + b ≤ a + c)]
  · rw [max_eq_left hbc, max_eq_left (by omega : a + c ≤ a + b)]

mutual
lemma calcDepth_eq_aux : ∀ (v : BVal) (cur : Nat),
    calcNestingDepth v cur = cur + depthContrib v
  | BVal.obj kvs, cur => by
    have h0 : calcNestingDepth (BVal.obj kvs) cur = calcNestingDepthObj kvs cur cur := rfl
    have h2 : depthContrib (BVal.obj kvs) = depthContribObj kvs := rfl
    rw [h0, calcDepthObj_eq_aux kvs cur cur (Nat.le_refl cur), h2]
    exact max_eq_right (Nat.le_add_right _ _)
  | BVal.scalar i, cur => rfl
  | BVal.arr a, cur => rfl
lemma calcDepthObj_eq_aux : ∀ (kvs : BObj) (cur acc : Nat), cur ≤ acc →
    calcNestingDepthObj kvs cur acc = max acc (cur + depthContribObj kvs)
  | BObj.nil, cur, acc, h => by
    have h0 : calcNestingDepthObj BObj.nil cur acc = acc := rfl
    have h1 : depthContribObj BObj.nil = 0 := rfl
    rw [h0, h1, Nat.add_zero, max_eq_left h]
  | BObj.cons k v rest, cur, acc, h => by
    rcases v with i | a | o
    · have h0 : calcNestingDepthObj (BObj.cons k (BVal.scalar i) rest) cur acc =
          calcNestingDepthObj rest cur acc := rfl
      have h1 : depthContribObj (BObj.cons k (BVal.scalar i) rest) =
          max 0 (depthContribObj rest) := rfl
      rw [h0, calcDepthObj_eq_aux rest cur acc h, h1, max_eq_right (Nat.zero_le _)]
    · have h0 : calcNestingDepthObj (BObj.cons k (BVal.arr a) rest) cur acc =
          calcNestingDepthObj rest cur
            (max acc (calcNestingDepth (BVal.arr a) (cur + 1))) := rfl
      have h1 : calcNestingDepth (BVal.arr a) (cur + 1) = cur + 1 := rfl
      have h2 : depthContribObj (BObj.cons k (BVal.arr a) rest) =
          max 1 (depthContribObj rest) := rfl
      rw [h0, h1, calcDepthObj_eq_aux rest cur (max acc (cur + 1))
          (le_trans (Nat.le_succ cur) (le_max_right acc (cur + 1))), h2,
        natMaxAddLeft cur 1 (depthContribObj rest), ← max_assoc]
    · have h0 : calcNestingDepthObj (BObj.cons k (BVal.obj o) rest) cur acc =
          calcNestingDepthObj rest cur
            (max acc (calcNestingDepth (BVal.obj o) (cur + 1))) := rfl
      have h1 := calcDepth_eq_aux (BVal.obj o) (cur + 1)
      have h2 : depthContribObj (BObj.cons k (BVal.obj o) rest) =
          max (1 + depthContrib (BVal.obj o)) (depthContribObj rest) := rfl
      rw [h0, h1, calcDepthObj_eq_aux rest cur
          (max acc (cur + 1 + depthContrib (BVal.obj o)))
          (le_trans (by omega) (le_max_right acc (cur + 1 + depthContrib (BVal.obj o)))),
        h2, natMaxAddLeft cur (1 + depthContrib (BVal.obj o)) (depthContribObj rest)]
      rw [show cur + (1 + depthContrib (BVal.obj o)) =
        cur + 1 + depthContrib (BVal.obj o) from by omega]
      rw [← max_assoc]
end

/-- C5 amended: the nesting depth computed by the code recurses through
nested map values only; each map or array value contributes one level (one
plus its own contribution for maps, exactly one for arrays, with array
elements never descended into) and scalar leaves contribute zero, as
captured by `depthContrib`. -/
theorem nesting_depth_characterization :
    ∀ (v : BVal) (cur : Nat), calcNestingDepth v cur = cur + depthContrib v :=
  calcDepth_eq_aux

lemma mem_ite_singleton {α : Type} {c : Prop} [Decidable c] {a s : α}
    (h : s ∈ (if c then [a] else ([] : List α))) : s = a := by
  split at h
  · simpa using h
  · simp at h

lemma recFragments_mem_bound (x : DetailedIndex) (s : String)
    (h : s ∈ recFragments x) : 19 ≤ s.length := by
  simp only [recFragments, List.mem_append] at h
  rcases h with ((((h | h) | h) | h) | h) | h <;>
    (have he := mem_ite_singleton h; subst he; decide)

lemma joinSep_head_le (s : String) (rest : List String) :
    s.length ≤ (joinSep "; " (s :: rest)).length := by
  cases rest with
  | nil => simp [joinSep]
  | cons r rs =>
    show s.length ≤ (s ++ "; " ++ joinSep "; " (r :: rs)).length
    rw [String.length_append, String.length_append]
    omega

lemma joinSep_recFragments_ne (x : DetailedIndex) (h : recFragments x ≠ []) :
    joinSep "; " (recFragments x) ≠ "No issues detected" ∧
    joinSep "; " (recFragments x) ≠ "" := by
  obtain ⟨s, rest, e⟩ := List.exists_cons_of_ne_nil h
  have hs : 19 ≤ s.length := recFragments_mem_bound x s (by
    rw [e]
    exact List.mem_cons_self s rest)
  have hlen : s.length ≤ (joinSep "; " (recFragments x)).length := by
    rw [e]
    exact joinSep_head_le s rest
  have h18 : ("No issues detected" : String).length = 18 := by decide
  have h0 : ("" : String).length = 0 := by decide
  constructor <;> intro hEq <;> rw [hEq] at hlen
  · rw [h18] at hlen
    omega
  · rw [h0] at hlen
    omega

lemma rec_formula (x : DetailedIndex) : (analyzeIndexProperties x).recommendation =
    (if x.recommendation ≠ "" then
      (if (if recFragments x = [] then "No issues detected"
            else joinSep "; " (recFragments x)) ≠ "No issues detected" then
        x.recommendation ++ "; " ++
          (if recFragments x = [] then "No issues detected"
           else joinSep "; " (recFragments x))
       else x.recommendation)
     else (if recFragments x = [] then "No issues detected"
           else joinSep "; " (recFragments x))) := rfl

lemma rec_ne_empty (x : DetailedIndex) : (analyzeIndexProperties x).recommendation ≠ "" := by
  rw [rec_formula x]
  by_cases hf : recFragments x = []
  · rw [if_pos hf]
    by_cases h1 : x.recommendation ≠ ""
    · rw [if_pos h1, if_neg (by simp)]
      exact h1
    · rw [if_neg h1]
      decide
  · rw [if_neg hf]
    by_cases h1 : x.recommendation ≠ ""
    · rw [if_pos h1]
      by_cases h2 : joinSep "; " (recFragments x) ≠ "No issues detected"
      · rw [if_pos h2]
        intro hc
        have hlen := congrArg String.length hc
        rw [String.length_append, String.length_append] at hlen
        have h2l : ("; " : String).length = 2 := by decide
        have h0 : ("" : String).length = 0 := by decide
        rw [h2l, h0] at hlen
        omega
      · rw [if_neg h2]
        exact h1
    · rw [if_neg h1]
      exact (joinSep_recFragments_ne x hf).2

/-- C10 amended: a second run of the property pass leaves the issues list
unchanged (issue messages are deduplicated), and leaves the recommendation
unchanged exactly when the index generates no recommendation fragments;
when it does generate fragments, the second run appends the joined
fragments once more after a semicolon, duplicating them. -/
theorem property_pass_second_run :
    ∀ x : DetailedIndex,
      (analyzeIndexProperties (analyzeIndexProperties x)).issues =
        (analyzeIndexProperties x).issues ∧
      (recFragments x = [] →
        (analyzeIndexProperties (analyzeIndexProperties x)).recommendation =
          (analyzeIndexProperties x).recommendation) ∧
      (recFragments x ≠ [] →
        (analyzeIndexProperties (analyzeIndexProperties x)).recommendation =
          (analyzeIndexProperties x).recommendation ++ "; " ++
            joinSep "; " (recFragments x)) := by
  intro x
  have hIssFrag : issueFragments (analyzeIndexProperties x) = issueFragments x := rfl
  have hRecFrag : recFragments (analyzeIndexProperties x) = recFragments x := rfl
  have hIssEq : (analyzeIndexProperties x).issues =
      x.issues ++ (issueFragments x).filter (fun s => !(x.issues.contains s)) := rfl
  refine ⟨?_, ?_, ?_⟩
  · have h2 : (analyzeIndexProperties (analyzeIndexProperties x)).issues =
        (analyzeIndexProperties x).issues ++
          (issueFragments (analyzeIndexProperties x)).filter
            (fun s => !((analyzeIndexProperties x).issues.contains s)) := rfl
    rw [h2, hIssFrag]
    have hnil : (issueFragments x).filter
        (fun s => !((analyzeIndexProperties x).issues.contains s)) = [] := by
      rw [List.filter_eq_nil_iff]
      intro a ha
      have hmem : a ∈ (analyzeIndexProperties x).issues := by
        rw [hIssEq]
        by_cases hc : a ∈ x.issues
        · exact List.mem_append.2 (Or.inl hc)
        · exact List.mem_append.2 (Or.inr (List.mem_filter.2
            ⟨ha, by simpa [List.elem_iff] using hc⟩))
      simp [List.elem_iff, hmem]
    rw [hnil, List.append_nil]
  · intro h0
    rw [rec_formula (analyzeIndexProperties x), hRecFrag, if_pos h0,
      if_pos (rec_ne_empty x), if_neg (by simp)]
  · intro h0
    rw [rec_formula (analyzeIndexProperties x), hRecFrag, if_neg h0,
      if_pos (rec_ne_empty x), if_pos ((joinSep_recFragments_ne x h0).1)]

/-- C10 witness: the fragment-appending case of the theorem applied to a
sparse index, whose sparse recommendation fragment is duplicated by the
second run. -/
theorem property_pass_second_run_witness :
    (analyzeIndexProperties (analyzeIndexProperties sparseIdxReal)).recommendation =
      (analyzeIndexProperties sparseIdxReal).recommendation ++ "; " ++
        joinSep "; " (recFragments sparseIdxReal) :=
  (property_pass_second_run sparseIdxReal).2.2 (by decide)

lemma sameCore_refl (x : DetailedIndex) : sameCore x x :=
  ⟨rfl, rfl, rfl, rfl, rfl, rfl⟩

lemma sameCore_trans {x y z : DetailedIndex} (h1 : sameCore x y) (h2 : sameCore y z) :
    sameCore x z := by
  obtain ⟨hyn, hyk, hyks, hyf, hye, hysh⟩ := h1
  obtain ⟨hzn, hzk, hzks, hzf, hze, hzsh⟩ := h2
  refine ⟨?_, ?_, ?_, ?_, ?_, ?_⟩
  · rw [hzn, hyn]
  · rw [hzk, hyk]
  · rw [hzks, hyks]
  · rw [hzf, hyf]
  · rw [hze, hye]
  · rw [hzsh, hysh]

lemma advances_refl (x : DetailedIndex) : Advances x x :=
  ⟨sameCore_refl x, fun h => h, fun _ hs => hs⟩

lemma advances_trans {x y z : DetailedIndex} (h1 : Advances x y) (h2 : Advances y z) :
    Advances x z :=
  ⟨sameCore_trans h1.1 h2.1, fun h => h2.2.1 (h1.2.1 h), fun s hs => h2.2.2 s (h1.2.2 s hs)⟩

lemma passInv_refl (l : List DetailedIndex) : PassInv l l := by
  refine ⟨rfl, ?_⟩
  intro m x y hx hy
  rw [hx] at hy
  cases hy
  exact advances_refl x

lemma passInv_length {l l2 : List DetailedIndex} (h : PassInv l l2) :
    l2.length = l.length := by
  obtain ⟨hlen, _⟩ := h
  exact hlen

lemma passInv_get {l l2 : List DetailedIndex} (h : PassInv l l2) {m : Nat}
    {x : DetailedIndex} (hx : l[m]? = some x) :
    ∃ y, l2[m]? = some y ∧ Advances x y := by
  obtain ⟨hlen, hadv⟩ := h
  have hm : m < l.length := (List.getElem?_eq_some.1 hx).1
  have hm2 : m < l2.length := by
    rw [hlen]
    exact hm
  exact ⟨l2[m], List.getElem?_eq_getElem hm2, hadv m x l2[m] hx (List.getElem?_eq_getElem hm2)⟩

lemma passInv_trans {l1 l2 l3 : List DetailedIndex} (h1 : PassInv l1 l2)
    (h2 : PassInv l2 l3) : PassInv l1 l3 := by
  obtain ⟨hlen2, hadv2⟩ := h2
  refine ⟨hlen2.trans (passInv_length h1), ?_⟩
  intro m x z hx hz
  obtain ⟨y, hy, hxy⟩ := passInv_get h1 hx
  exact advances_trans hxy (hadv2 m y z hy hz)

lemma passInv_set (l : List DetailedIndex) {i : Nat} {x : DetailedIndex}
    (hx : l[i]? = some x) {y : DetailedIndex} (hxy : Advances x y) :
    PassInv l (l.set i y) := by
  have hi : i < l.length := (List.getElem?_eq_some.1 hx).1
  refine ⟨List.length_set l i y, ?_⟩
  intro m a b ha hb
  by_cases hm : i = m
  · subst hm
    rw [List.getElem?_set_eq_of_lt y hi] at hb
    cases hb
    rw [hx] at ha
    cases ha
    exact hxy
  · rw [List.getElem?_set_ne hm] at hb
    rw [ha] at hb
    cases hb
    exact advances_refl a

lemma passInv_foldl {α : Type} (f : List DetailedIndex → α → List DetailedIndex)
    (xs : List α) (hf : ∀ acc a, a ∈ xs → PassInv acc (f acc a)) :
    ∀ acc, PassInv acc (xs.foldl f acc) := by
  induction xs with
  | nil => intro acc; exact passInv_refl acc
  | cons a as ih =>
    intro acc
    exact passInv_trans (hf acc a (List.mem_cons_self a as))
      (ih (fun acc2 b hb => hf acc2 b (List.mem_cons_of_mem a hb)) (f acc a))

lemma foldl_keep {α : Type} (f : List DetailedIndex → α → List DetailedIndex)
    (l0 : List DetailedIndex) (P : List DetailedIndex → Prop) (xs : List α)
    (hf : ∀ acc a, a ∈ xs → PassInv acc (f acc a))
    (hkeep : ∀ acc a, a ∈ xs → PassInv l0 acc → P acc → P (f acc a)) :
    ∀ acc, PassInv l0 acc → P acc →
      PassInv l0 (xs.foldl f acc) ∧ P (xs.foldl f acc) := by
  induction xs with
  | nil => intro acc h hp; exact ⟨h, hp⟩
  | cons a as ih =>
    intro acc h hp
    have h1 : PassInv l0 (f acc a) :=
      passInv_trans h (hf acc a (List.mem_cons_self a as))
    have hp1 : P (f acc a) := hkeep acc a (List.mem_cons_self a as) h hp
    exact ih (fun acc2 b hb => hf acc2 b (List.mem_cons_of_mem a hb))
      (fun acc2 b hb => hkeep acc2 b (List.mem_cons_of_mem a hb)) (f acc a) h1 hp1

lemma foldl_fire {α : Type} (f : List DetailedIndex → α → List DetailedIndex)
    (l0 : List DetailedIndex) (P : List DetailedIndex → Prop) (xs : List α) (x : α)
    (hx : x ∈ xs)
    (hf : ∀ acc a, a ∈ xs → PassInv acc (f acc a))
    (hkeep : ∀ acc a, a ∈ xs → PassInv l0 acc → P acc → P (f acc a))
    (hfire : ∀ acc, PassInv l0 acc → P (f acc x)) :
    ∀ acc, PassInv l0 acc → PassInv l0 (xs.foldl f acc) ∧ P (xs.foldl f acc) := by
  intro acc h0
  obtain ⟨s, t, rfl⟩ := List.append_of_mem hx
  rw [List.foldl_append, List.foldl_cons]
  have hmm : ∀ (b : α), b ∈ s → b ∈ s ++ x :: t := fun b hb =>
    List.mem_append.2 (Or.inl hb)
  have hmt : ∀ (b : α), b ∈ t → b ∈ s ++ x :: t := fun b hb =>
    List.mem_append.2 (Or.inr (List.mem_cons_of_mem x hb))
  have hmx : x ∈ s ++ x :: t := List.mem_append.2 (Or.inr (List.mem_cons_self x t))
  have hs : PassInv l0 (s.foldl f acc) :=
    passInv_trans h0 (passInv_foldl f s (fun acc2 b hb => hf acc2 b (hmm b hb)) acc)
  have h1 : PassInv l0 (f (s.foldl f acc) x) :=
    passInv_trans hs (hf (s.foldl f acc) x hmx)
  have hp1 : P (f (s.foldl f acc) x) := hfire (s.foldl f acc) hs
  exact foldl_keep f l0 P t (fun acc2 b hb => hf acc2 b (hmt b hb))
    (fun acc2 b hb => hkeep acc2 b (hmt b hb)) (f (s.foldl f acc) x) h1 hp1

lemma passInv_dupStep (i j : Nat) (hij : i ≠ j) (l : List DetailedIndex) :
    PassInv l (dupStep i j l) := by
  rcases ha : l[i]? with _ | a
  · have he : dupStep i j l = l := by simp [dupStep, ha]
    rw [he]
    exact passInv_refl l
  · rcases hb : l[j]? with _ | b
    · have he : dupStep i j l = l := by simp [dupStep, ha, hb]
      rw [he]
      exact passInv_refl l
    · by_cases heq : a.effectiveKey = b.effectiveKey
      · have hstep : dupStep i j l =
            (l.set i (dupFlag a b.name)).set j (dupFlag b a.name) := by
          simp [dupStep, ha, hb, heq]
        rw [hstep]
        have h1 : PassInv l (l.set i (dupFlag a b.name)) :=
          passInv_set l ha ⟨⟨rfl, rfl, rfl, rfl, rfl, rfl⟩, fun _ => rfl,
            fun s hs => List.mem_append.2 (Or.inl hs)⟩
        have hb2 : (l.set i (dupFlag a b.name))[j]? = some b := by
          rw [List.getElem?_set_ne hij]
          exact hb
        exact passInv_trans h1 (passInv_set _ hb2 ⟨⟨rfl, rfl, rfl, rfl, rfl, rfl⟩,
          fun _ => rfl, fun s hs => List.mem_append.2 (Or.inl hs)⟩)
      · have he : dupStep i j l = l := by simp [dupStep, ha, hb, heq]
        rw [he]
        exact passInv_refl l

lemma flagged_stable {l l2 : List DetailedIndex} (h : PassInv l l2) {m : Nat}
    {msg : String}
    (hp : ∃ x, l[m]? = some x ∧ x.isDuplicate = true ∧ msg ∈ x.issues) :
    ∃ y, l2[m]? = some y ∧ y.isDuplicate = true ∧ msg ∈ y.issues := by
  obtain ⟨x, hx, hd, hmem⟩ := hp
  obtain ⟨y, hy, hadv⟩ := passInv_get h hx
  exact ⟨y, hy, hadv.2.1 hd, hadv.2.2 msg hmem⟩

lemma dupStep_fires (l : List DetailedIndex) (i j : Nat) (hij : i ≠ j)
    (a b : DetailedIndex) (ha : l[i]? = some a) (hb : l[j]? = some b)
    (heq : a.effectiveKey = b.effectiveKey) :
    (∃ a2, (dupStep i j l)[i]? = some a2 ∧ a2.isDuplicate = true ∧
      dupMsg b.name ∈ a2.issues) ∧
    (∃ b2, (dupStep i j l)[j]? = some b2 ∧ b2.isDuplicate = true ∧
      dupMsg a.name ∈ b2.issues) := by
  have hi : i < l.length := (List.getElem?_eq_some.1 ha).1
  have hj : j < l.length := (List.getElem?_eq_some.1 hb).1
  have hstep : dupStep i j l =
      (l.set i (dupFlag a b.name)).set j (dupFlag b a.name) := by
    simp [dupStep, ha, hb, heq]
  rw [hstep]
  constructor
  · refine ⟨dupFlag a b.name, ?_, rfl, ?_⟩
    · rw [List.getElem?_set_ne (Ne.symm hij)]
      exact List.getElem?_set_eq_of_lt _ hi
    · exact List.mem_append.2 (Or.inr (List.mem_singleton.2 rfl))
  · refine ⟨dupFlag b a.name, ?_, rfl, ?_⟩
    · apply List.getElem?_set_eq_of_lt
      rw [List.length_set]
      exact hj
    · exact List.mem_append.2 (Or.inr (List.mem_singleton.2 rfl))

lemma passInv_dupOuterStep (acc : List DetailedIndex) (m : Nat) :
    PassInv acc (dupOuterStep acc m) := by
  rcases hm : acc[m]? with _ | a
  · have he : dupOuterStep acc m = acc := by simp [dupOuterStep, hm]
    rw [he]
    exact passInv_refl acc
  · by_cases hex : passExempt a = true
    · have he : dupOuterStep acc m = acc := by simp [dupOuterStep, hm, hex]
      rw [he]
      exact passInv_refl acc
    · have hstep : dupOuterStep acc m =
          (List.range' (m+1) (acc.length - (m+1))).foldl
            (fun acc2 j => dupStep m j acc2) acc := by
        simp [dupOuterStep, hm, hex]
      rw [hstep]
      apply passInv_foldl
      intro acc2 j hj
      have hmj : m ≠ j := by
        rw [List.mem_range'_1] at hj
        omega
      exact passInv_dupStep m j hmj acc2

lemma dupOuter_fires (l0 : List DetailedIndex) (i j : Nat) (a b : DetailedIndex)
    (hij : i < j) (ha : l0[i]? = some a) (hb : l0[j]? = some b)
    (hke : a.keyString ≠ idOnlyKeyString) (hsh : a.isShardKey = false)
    (heq : a.effectiveKey = b.effectiveKey) :
    ∀ acc, PassInv l0 acc →
      (∃ a2, (dupOuterStep acc i)[i]? = some a2 ∧ a2.isDuplicate = true ∧
        dupMsg b.name ∈ a2.issues) ∧
      (∃ b2, (dupOuterStep acc i)[j]? = some b2 ∧ b2.isDuplicate = true ∧
        dupMsg a.name ∈ b2.issues) := by
  intro acc hacc
  obtain ⟨a2, ha2, hadv⟩ := passInv_get hacc ha
  have hex : passExempt a2 = false := by
    obtain ⟨⟨hn, hk, hks, hf, he, hs⟩, _, _⟩ := hadv
    unfold passExempt
    rw [hks, hs, hsh]
    simp [hke]
  have hstep : dupOuterStep acc i =
      (List.range' (i+1) (acc.length - (i+1))).foldl
        (fun acc2 j2 => dupStep i j2 acc2) acc := by
    simp [dupOuterStep, ha2, hex]
  rw [hstep]
  have hlen : acc.length = l0.length := passInv_length hacc
  have hjlen : j < l0.length := (List.getElem?_eq_some.1 hb).1
  have hxmem : j ∈ List.range' (i+1) (acc.length - (i+1)) := by
    rw [List.mem_range'_1, hlen]
    omega
  refine (foldl_fire (fun acc2 j2 => dupStep i j2 acc2) l0
    (fun acc2 =>
      (∃ a3, acc2[i]? = some a3 ∧ a3.isDuplicate = true ∧ dupMsg b.name ∈ a3.issues) ∧
      (∃ b3, acc2[j]? = some b3 ∧ b3.isDuplicate = true ∧ dupMsg a.name ∈ b3.issues))
    (List.range' (i+1) (acc.length - (i+1))) j hxmem ?_ ?_ ?_ acc hacc).2
  · intro acc2 m hm
    have him : i ≠ m := by
      rw [List.mem_range'_1] at hm
      omega
    exact passInv_dupStep i m him acc2
  · intro acc2 m hm hinv hp
    have him : i ≠ m := by
      rw [List.mem_range'_1] at hm
      omega
    exact ⟨flagged_stable (passInv_dupStep i m him acc2) hp.1,
      flagged_stable (passInv_dupStep i m him acc2) hp.2⟩
  · intro acc2 hinv
    obtain ⟨a3, ha3, hadv3⟩ := passInv_get hinv ha
    obtain ⟨b3, hb3, hadv3b⟩ := passInv_get hinv hb
    have heq3 : a3.effectiveKey = b3.effectiveKey := by
      obtain ⟨⟨_, _, _, _, hea, _⟩, _, _⟩ := hadv3
      obtain ⟨⟨_, _, _, _, heb, _⟩, _, _⟩ := hadv3b
      rw [hea, heb, heq]
    have hnb : b3.name = b.name := hadv3b.1.1
    have hna : a3.name = a.name := hadv3.1.1
    have hfj := dupStep_fires acc2 i j (by omega) a3 b3 ha3 hb3 heq3
    rw [hnb, hna] at hfj
    exact hfj

/-- C1: on every pair of positions `i < j` whose indexes have equal
effective keys and are not exempted by the pass (the key string differs
from the literal `"\x7b _id: 1 \x7d"` — which holds for every index built
by `_create_detailed_index` — and the shard-key flag is unset), the
duplicate pass flags both indexes as duplicates and appends to each an
issue naming the other index. -/
theorem duplicate_pass_flags_equal_pairs :
    ∀ (l : List DetailedIndex) (i j : Nat) (a b : DetailedIndex),
      i < j → l[i]? = some a → l[j]? = some b →
      a.keyString ≠ idOnlyKeyString → a.isShardKey = false →
      b.keyString ≠ idOnlyKeyString → b.isShardKey = false →
      a.effectiveKey = b.effectiveKey →
      (∃ a2, (checkDuplicateIndexes l)[i]? = some a2 ∧ a2.isDuplicate = true ∧
        dupMsg b.name ∈ a2.issues) ∧
      (∃ b2, (checkDuplicateIndexes l)[j]? = some b2 ∧ b2.isDuplicate = true ∧
        dupMsg a.name ∈ b2.issues) := by
  intro l i j a b hij ha hb hake hash hbke hbsh heq
  have hile : i < l.length := (List.getElem?_eq_some.1 ha).1
  have himem : i ∈ List.range' 0 l.length := by
    rw [List.mem_range'_1]
    omega
  unfold checkDuplicateIndexes
  exact (foldl_fire dupOuterStep l
    (fun acc2 =>
      (∃ a3, acc2[i]? = some a3 ∧ a3.isDuplicate = true ∧ dupMsg b.name ∈ a3.issues) ∧
      (∃ b3, acc2[j]? = some b3 ∧ b3.isDuplicate = true ∧ dupMsg a.name ∈ b3.issues))
    (List.range' 0 l.length) i himem
    (fun acc m _ => passInv_dupOuterStep acc m)
    (fun acc m _ _ hp => ⟨flagged_stable (passInv_dupOuterStep acc m) hp.1,
      flagged_stable (passInv_dupOuterStep acc m) hp.2⟩)
    (dupOuter_fires l i j a b hij ha hb hake hash heq)
    l (passInv_refl l)).2

/-- C1 witness: the theorem applied to an ascending and a descending
single-field index on the same field, which share one effective key. -/
theorem duplicate_pass_flags_equal_pairs_witness :
    (∃ a2, (checkDuplicateIndexes c1List)[0]? = some a2 ∧ a2.isDuplicate = true ∧
      dupMsg "a_desc" ∈ a2.issues) ∧
    (∃ b2, (checkDuplicateIndexes c1List)[1]? = some b2 ∧ b2.isDuplicate = true ∧
      dupMsg "a_asc" ∈ b2.issues) :=
  duplicate_pass_flags_equal_pairs c1List 0 1 (plainIndex "a_asc" [("a", 1)] 3)
    (plainIndex "a_desc" [("a", -1)] 3) (by decide) (by decide) (by decide)
    (by decide) (by decide) (by decide) (by decide) (by decide)

lemma passExempt_congr {x y : DetailedIndex} (h : sameCore x y) :
    passExempt y = passExempt x := by
  obtain ⟨hn, hk, hks, hf, he, hs⟩ := h
  unfold passExempt
  rw [hks, hs]

lemma redCond_congr {a a2 b b2 : DetailedIndex} (ha : sameCore a a2)
    (hb : sameCore b b2) : redundantPairCond a2 b2 = redundantPairCond a b := by
  obtain ⟨an, ak, aks, af, ae, ash⟩ := ha
  obtain ⟨bn, bk, bks, bf, be, bsh⟩ := hb
  unfold redundantPairCond directionsMatch
  rw [ak, af, bk, bf]

lemma redFlag_issues (b : DetailedIndex) (n : String) :
    (redFlag b n).issues = if b.issues.contains (redundantMsg n) then b.issues
      else b.issues ++ [redundantMsg n] := rfl

lemma redFlag_mem (b : DetailedIndex) (n : String) :
    redundantMsg n ∈ (redFlag b n).issues := by
  rw [redFlag_issues]
  split
  · next hcont => exact List.elem_iff.1 hcont
  · exact List.mem_append.2 (Or.inr (List.mem_singleton.2 rfl))

lemma redFlag_mem_of_mem (b : DetailedIndex) (n : String) {s : String}
    (h : s ∈ b.issues) : s ∈ (redFlag b n).issues := by
  rw [redFlag_issues]
  split
  · exact h
  · exact List.mem_append.2 (Or.inl h)

lemma advances_redFlag (b : DetailedIndex) (n : String) : Advances b (redFlag b n) :=
  ⟨⟨rfl, rfl, rfl, rfl, rfl, rfl⟩, fun _ => rfl, fun s hs => redFlag_mem_of_mem b n hs⟩

lemma passInv_redStep (i j : Nat) (l : List DetailedIndex) : PassInv l (redStep i j l) := by
  rcases ha : l[i]? with _ | a
  · have he : redStep i j l = l := by simp [redStep, ha]
    rw [he]
    exact passInv_refl l
  · rcases hb : l[j]? with _ | b
    · have he : redStep i j l = l := by simp [redStep, ha, hb]
      rw [he]
      exact passInv_refl l
    · by_cases hg : (i == j || passExempt b) = true
      · have he : redStep i j l = l := by simp [redStep, ha, hb, hg]
        rw [he]
        exact passInv_refl l
      · by_cases hc : redundantPairCond a b = true
        · have he : redStep i j l = l.set j (redFlag b a.name) := by
            simp [redStep, ha, hb, hg, hc]
          rw [he]
          exact passInv_set l hb (advances_redFlag b a.name)
        · have he : redStep i j l = l := by simp [redStep, ha, hb, hg, hc]
          rw [he]
          exact passInv_refl l

lemma passInv_redOuterStep (acc : List DetailedIndex) (m : Nat) :
    PassInv acc (redOuterStep acc m) := by
  rcases hm : acc[m]? with _ | a
  · have he : redOuterStep acc m = acc := by simp [redOuterStep, hm]
    rw [he]
    exact passInv_refl acc
  · by_cases hex : passExempt a = true
    · have he : redOuterStep acc m = acc := by simp [redOuterStep, hm, hex]
      rw [he]
      exact passInv_refl acc
    · have hstep : redOuterStep acc m =
          (List.range' 0 acc.length).foldl (fun acc2 j2 => redStep m j2 acc2) acc := by
        simp [redOuterStep, hm, hex]
      rw [hstep]
      exact passInv_foldl _ _ (fun acc2 j2 _ => passInv_redStep m j2 acc2) acc

lemma redOuterStep_keep_of (l0 : List DetailedIndex) (P : List DetailedIndex → Prop)
    (hstep : ∀ (m j2 : Nat), (∃ aO, l0[m]? = some aO ∧ passExempt aO = false) →
      ∀ acc, PassInv l0 acc → P acc → P (redStep m j2 acc)) :
    ∀ acc m, PassInv l0 acc → P acc → P (redOuterStep acc m) := by
  intro acc m hinv hp
  rcases ham : acc[m]? with _ | am
  · have he : redOuterStep acc m = acc := by simp [redOuterStep, ham]
    rw [he]
    exact hp
  · by_cases hex : passExempt am = true
    · have he : redOuterStep acc m = acc := by simp [redOuterStep, ham, hex]
      rw [he]
      exact hp
    · have hmlen : m < acc.length := (List.getElem?_eq_some.1 ham).1
      have hml0 : m < l0.length := by
        rw [passInv_length hinv] at hmlen
        exact hmlen
      have haO : l0[m]? = some l0[m] := List.getElem?_eq_getElem hml0
      obtain ⟨am2, ham2, hadv⟩ := passInv_get hinv haO
      have ham3 : am2 = am := by
        rw [ham2] at ham
        exact Option.some.inj ham
      subst ham3
      have hexO : passExempt (l0[m]) = false := by
        rw [← passExempt_congr hadv.1]
        exact Bool.not_eq_true _ ▸ (Bool.eq_false_iff.2 hex)
      have hstep2 : redOuterStep acc m =
          (List.range' 0 acc.length).foldl (fun acc2 j2 => redStep m j2 acc2) acc := by
        simp [redOuterStep, ham2, hex]
      rw [hstep2]
      exact (foldl_keep _ l0 P _ (fun acc2 j2 _ => passInv_redStep m j2 acc2)
        (fun acc2 j2 _ hinv2 hp2 => hstep m j2 ⟨l0[m], haO, hexO⟩ acc2 hinv2 hp2)
        acc hinv hp).2

lemma redStep_keeps (l0 : List DetailedIndex) (j : Nat) (na : String)
    (m j2 : Nat) (hout : ∃ aO, l0[m]? = some aO ∧ passExempt aO = false)
    (acc : List DetailedIndex) (hinv : PassInv l0 acc)
    (hp : RedP l0 j na acc) : RedP l0 j na (redStep m j2 acc) := by
  rcases hai : acc[m]? with _ | a3
  · have he : redStep m j2 acc = acc := by simp [redStep, hai]
    rw [he]
    exact hp
  rcases hbj : acc[j2]? with _ | b3
  · have he : redStep m j2 acc = acc := by simp [redStep, hai, hbj]
    rw [he]
    exact hp
  by_cases hg : (m == j2 || passExempt b3) = true
  · have he : redStep m j2 acc = acc := by simp [redStep, hai, hbj, hg]
    rw [he]
    exact hp
  by_cases hc : redundantPairCond a3 b3 = true
  · have he : redStep m j2 acc = acc.set j2 (redFlag b3 a3.name) := by
      simp [redStep, hai, hbj, hg, hc]
    rw [he]
    have hj2len : j2 < acc.length := (List.getElem?_eq_some.1 hbj).1
    by_cases hjj : j2 = j
    · subst hjj
      obtain ⟨b2, hb2, hdup, hmsg, i3, a4, ha4, hfires, hrec⟩ := hp
      have hbb : b2 = b3 := by
        rw [hb2] at hbj
        exact Option.some.inj hbj
      rw [hbb] at hmsg
      have hgg : (m == j2) = false ∧ passExempt b3 = false := by
        constructor
        · rcases hmj : (m == j2) with _ | _
          · rfl
          · exact absurd (by rw [hmj]; rfl : (m == j2 || passExempt b3) = true) hg
        · rcases hpe : passExempt b3 with _ | _
          · rfl
          · exact absurd (by rw [hpe, Bool.or_true] : (m == j2 || passExempt b3) = true) hg
      have hmlen : m < acc.length := (List.getElem?_eq_some.1 hai).1
      have hml0 : m < l0.length := by
        rw [passInv_length hinv] at hmlen
        exact hmlen
      have hjl0 : j2 < l0.length := by
        rw [passInv_length hinv] at hj2len
        exact hj2len
      have haL : l0[m]? = some l0[m] := List.getElem?_eq_getElem hml0
      have hbL : l0[j2]? = some l0[j2] := List.getElem?_eq_getElem hjl0
      obtain ⟨a3x, ha3x, hadvA⟩ := passInv_get hinv haL
      obtain ⟨b3x, hb3x, hadvB⟩ := passInv_get hinv hbL
      have hax : a3x = a3 := by
        rw [ha3x] at hai
        exact Option.some.inj hai
      have hbx : b3x = b3 := by
        have hbj2 := hbj
        rw [hb3x] at hbj2
        exact Option.some.inj hbj2
      rw [hax] at hadvA
      rw [hbx] at hadvB
      have hOut : passExempt (l0[m]) = false := by
        obtain ⟨aO, haO, hexO⟩ := hout
        have heqO : aO = l0[m] := by
          rw [haL] at haO
          exact (Option.some.inj haO).symm
        rw [← heqO]
        exact hexO
      have hbOut : passExempt (l0[j2]) = false := by
        rw [← passExempt_congr hadvB.1]
        exact hgg.2
      have hcond0 : redundantPairCond (l0[m]) (l0[j2]) = true := by
        rw [← redCond_congr hadvA.1 hadvB.1]
        exact hc
      refine ⟨redFlag b3 a3.name, ?_, rfl, ?_, m, l0[m], haL, ?_, ?_⟩
      · exact List.getElem?_set_eq_of_lt _ hj2len
      · exact redFlag_mem_of_mem b3 a3.name hmsg
      · exact ⟨l0[m], l0[j2], haL, hbL, ne_of_beq_false hgg.1, hOut, hbOut, hcond0⟩
      · have : a3.name = (l0[m]).name := hadvA.1.1
        show (redFlag b3 a3.name).recommendation = dropRec (l0[m]).name
        rw [show (redFlag b3 a3.name).recommendation = dropRec a3.name from rfl, this]
    · obtain ⟨b2, hb2, hdup, hmsg, i3, a4, ha4, hfires, hrec⟩ := hp
      refine ⟨b2, ?_, hdup, hmsg, i3, a4, ha4, hfires, hrec⟩
      rw [List.getElem?_set_ne hjj]
      exact hb2
  · have he : redStep m j2 acc = acc := by simp [redStep, hai, hbj, hg, hc]
    rw [he]
    exact hp

lemma redOuter_fires (l0 : List DetailedIndex) (i j : Nat) (a b : DetailedIndex)
    (hij : i ≠ j) (ha : l0[i]? = some a) (hb : l0[j]? = some b)
    (hexa : passExempt a = false) (hexb : passExempt b = false)
    (hcond : redundantPairCond a b = true) :
    ∀ acc, PassInv l0 acc → RedP l0 j a.name (redOuterStep acc i) := by
  intro acc hacc
  obtain ⟨a3, ha3, hadv⟩ := passInv_get hacc ha
  have hex3 : passExempt a3 = false := by
    rw [passExempt_congr hadv.1]
    exact hexa
  have hstep : redOuterStep acc i =
      (List.range' 0 acc.length).foldl (fun acc2 j2 => redStep i j2 acc2) acc := by
    simp [redOuterStep, ha3, hex3]
  rw [hstep]
  have hlen : acc.length = l0.length := passInv_length hacc
  have hjlen : j < l0.length := (List.getElem?_eq_some.1 hb).1
  have hjmem : j ∈ List.range' 0 acc.length := by
    rw [List.mem_range'_1, hlen]
    omega
  refine (foldl_fire (fun acc2 j2 => redStep i j2 acc2) l0 (RedP l0 j a.name)
    (List.range' 0 acc.length) j hjmem
    (fun acc2 m _ => passInv_redStep i m acc2)
    (fun acc2 m _ hinv hp => redStep_keeps l0 j a.name i m ⟨a, ha, hexa⟩ acc2 hinv hp)
    ?_ acc hacc).2
  intro acc2 hinv
  obtain ⟨a4, ha4, hadvA⟩ := passInv_get hinv ha
  obtain ⟨b4, hb4, hadvB⟩ := passInv_get hinv hb
  have hex4 : passExempt b4 = false := by
    rw [passExempt_congr hadvB.1]
    exact hexb
  have hcond4 : redundantPairCond a4 b4 = true := by
    rw [redCond_congr hadvA.1 hadvB.1]
    exact hcond
  have hgf : (i == j || passExempt b4) = false := by
    rw [hex4, Bool.or_false]
    exact beq_eq_false_iff_ne.2 hij
  have he : redStep i j acc2 = acc2.set j (redFlag b4 a4.name) := by
    simp [redStep, ha4, hb4, hgf, hcond4]
  show RedP l0 j a.name (redStep i j acc2)
  rw [he]
  have hjl : j < acc2.length := (List.getElem?_eq_some.1 hb4).1
  have hna : a4.name = a.name := hadvA.1.1
  refine ⟨redFlag b4 a4.name, List.getElem?_set_eq_of_lt _ hjl, rfl, ?_, i, a, ha, ?_, ?_⟩
  · rw [← hna]
    exact redFlag_mem b4 a4.name
  · exact ⟨a, b, ha, hb, hij, hexa, hexb, hcond⟩
  · show (redFlag b4 a4.name).recommendation = dropRec a.name
    rw [show (redFlag b4 a4.name).recommendation = dropRec a4.name from rfl, hna]

lemma dropRec_ne_empty (n : String) : dropRec n ≠ "" := by
  intro h
  have hlen := congrArg String.length h
  unfold dropRec at hlen
  rw [String.length_append, String.length_append] at hlen
  have h31 : ("Consider dropping this index - " : String).length = 31 := by decide
  have h27 : (" can serve the same queries" : String).length = 27 := by decide
  have h0 : ("" : String).length = 0 := by decide
  rw [h31, h27, h0] at hlen
  omega

lemma strAppend_assoc (a b c : String) : (a ++ b) ++ c = a ++ (b ++ c) := by
  apply congrArg String.mk
  show ((a ++ b) ++ c).data = (a ++ (b ++ c)).data
  rw [String.data_append, String.data_append, String.data_append, String.data_append,
    List.append_assoc]

/-- C2 amended: for every ordered pair of positions whose indexes are both
non-exempt for the pass and satisfy the strict direction-compatible prefix
condition, the redundancy pass flags the shorter index as duplicate and
appends the issue naming the longer index; its recommendation after the
pass is the drop suggestion of the LAST longer index of a firing pair in
scan order — so it names the longer index of SOME firing pair, not
necessarily this one — and the later per-index property pass concatenates
to that recommendation rather than overwriting it, so the drop suggestion
stays as a prefix of the final recommendation.  An index that is the
shorter member of no firing pair, in particular the longer index of this
pair when nothing fires for it, is left untouched by the pass. -/
theorem redundancy_pass_flags_prefix :
    ∀ (l : List DetailedIndex) (i j : Nat) (a b : DetailedIndex),
      i ≠ j → l[i]? = some a → l[j]? = some b →
      passExempt a = false → passExempt b = false →
      redundantPairCond a b = true →
      (∃ b2, ((checkRedundantIndexes l).map analyzeIndexProperties)[j]? = some b2 ∧
        b2.isDuplicate = true ∧ redundantMsg a.name ∈ b2.issues ∧
        ∃ i2 a2 t, l[i2]? = some a2 ∧ RedFires l i2 j ∧
          b2.recommendation = dropRec a2.name ++ t) ∧
      ((∀ i2, ¬ RedFires l i2 i) → (checkRedundantIndexes l)[i]? = some a) := by
  intro l i j a b hij ha hb hexa hexb hcond
  have hile : i < l.length := (List.getElem?_eq_some.1 ha).1
  have himem : i ∈ List.range' 0 l.length := by
    rw [List.mem_range'_1]
    omega
  have hcr : checkRedundantIndexes l = (List.range' 0 l.length).foldl redOuterStep l := rfl
  constructor
  · have hP := (foldl_fire redOuterStep l (RedP l j a.name) (List.range' 0 l.length)
      i himem
      (fun acc m _ => passInv_redOuterStep acc m)
      (fun acc m _ hinv hp => redOuterStep_keep_of l (RedP l j a.name)
        (fun m2 j2 hout3 acc2 hinv2 hp2 =>
          redStep_keeps l j a.name m2 j2 hout3 acc2 hinv2 hp2) acc m hinv hp)
      (redOuter_fires l i j a b hij ha hb hexa hexb hcond)
      l (passInv_refl l)).2
    rw [← hcr] at hP
    obtain ⟨b2, hb2, hdup, hmsg, i2, a2, ha2, hfires, hrec⟩ := hP
    refine ⟨analyzeIndexProperties b2, ?_, hdup, ?_, i2, a2, ?_, ha2, hfires, ?_⟩
    · rw [List.getElem?_map, hb2]
      rfl
    · have hIs : (analyzeIndexProperties b2).issues =
          b2.issues ++ (issueFragments b2).filter (fun s => !(b2.issues.contains s)) := rfl
      rw [hIs]
      exact List.mem_append.2 (Or.inl hmsg)
    · exact (if recFragments b2 = [] then "" else "; " ++ joinSep "; " (recFragments b2))
    · by_cases hfr : recFragments b2 = []
      · rw [rec_formula b2, if_pos hfr, if_pos (by rw [hrec]; exact dropRec_ne_empty a2.name),
          if_neg (by simp), if_pos hfr, hrec, String.append_empty]
      · rw [rec_formula b2, if_neg hfr, if_pos (by rw [hrec]; exact dropRec_ne_empty a2.name),
          if_pos ((joinSep_recFragments_ne b2 hfr).1), if_neg hfr, hrec, strAppend_assoc]
  · intro hnofire
    have hstepP2 : ∀ (m2 j2 : Nat),
        (∃ aO, l[m2]? = some aO ∧ passExempt aO = false) →
        ∀ acc2, PassInv l acc2 → acc2[i]? = some a →
          (redStep m2 j2 acc2)[i]? = some a := by
      intro m2 j2 hout acc2 hinv2 hp2
      rcases ham : acc2[m2]? with _ | a5
      · have he : redStep m2 j2 acc2 = acc2 := by simp [redStep, ham]
        rw [he]
        exact hp2
      rcases hbj : acc2[j2]? with _ | b5
      · have he : redStep m2 j2 acc2 = acc2 := by simp [redStep, ham, hbj]
        rw [he]
        exact hp2
      by_cases hg : (m2 == j2 || passExempt b5) = true
      · have he : redStep m2 j2 acc2 = acc2 := by simp [redStep, ham, hbj, hg]
        rw [he]
        exact hp2
      by_cases hc : redundantPairCond a5 b5 = true
      · have he : redStep m2 j2 acc2 = acc2.set j2 (redFlag b5 a5.name) := by
          simp [redStep, ham, hbj, hg, hc]
        rw [he]
        by_cases hji : j2 = i
        · exfalso
          rw [hji] at hbj
          have hb5 : b5 = a := by
            rw [hbj] at hp2
            exact Option.some.inj hp2
          have hgg1 : (m2 == j2) = false := by
            rcases hmj : (m2 == j2) with _ | _
            · rfl
            · exact absurd (by rw [hmj]; rfl :
                (m2 == j2 || passExempt b5) = true) hg
          have hgg2 : passExempt b5 = false := by
            rcases hpe : passExempt b5 with _ | _
            · rfl
            · exact absurd (by rw [hpe, Bool.or_true] :
                (m2 == j2 || passExempt b5) = true) hg
          obtain ⟨aO, haO, hexO⟩ := hout
          obtain ⟨a5x, ha5x, hadvO⟩ := passInv_get hinv2 haO
          have hax : a5x = a5 := by
            rw [ha5x] at ham
            exact Option.some.inj ham
          rw [hax] at hadvO
          have hcondO : redundantPairCond aO a = true := by
            rw [← hb5, ← redCond_congr hadvO.1 (sameCore_refl b5)]
            exact hc
          have hm2i : m2 ≠ i := by
            intro hmi
            exact (ne_of_beq_false hgg1) (by rw [hmi, hji])
          have hexA : passExempt a = false := by
            rw [← hb5]
            exact hgg2
          exact hnofire m2 ⟨aO, a, haO, ha, hm2i, hexO, hexA, hcondO⟩
        · rw [List.getElem?_set_ne hji]
          exact hp2
      · have he : redStep m2 j2 acc2 = acc2 := by simp [redStep, ham, hbj, hg, hc]
        rw [he]
        exact hp2
    rw [hcr]
    exact (foldl_keep redOuterStep l (fun acc => acc[i]? = some a)
      (List.range' 0 l.length)
      (fun acc m _ => passInv_redOuterStep acc m)
      (fun acc m _ hinv hp => redOuterStep_keep_of l (fun acc2 => acc2[i]? = some a)
        hstepP2 acc m hinv hp)
      l (passInv_refl l) ha).2

/-- C2 counterexample: in the full analyzer pipeline on the prefix triple,
the pair (ab_idx, a_short) satisfies the redundancy condition, yet the
final recommendation of a_short is the drop suggestion naming ac_idx — the
recommendation written for the ab_idx pair was overwritten by the later
ac_idx pair — and no suffix extends the ab_idx drop suggestion into it, so
the per-pair recommendation part of the claim fails at this input. -/
theorem redundancy_rec_overwritten :
    redundantPairCond
      (createDetailedIndex (plainRawIndex "ab_idx" [("a", 1), ("b", 1)]) c2Usage)
      (createDetailedIndex (plainRawIndex "a_short" [("a", 1)]) c2Usage) = true ∧
    ((analyzeCollectionIndexes c2RawIndexes c2Usage).map
      (fun x => (x.name, x.isDuplicate, x.recommendation)))[2]? =
      some ("a_short", true, dropRec "ac_idx") ∧
    ¬ ∃ t, dropRec "ac_idx" = dropRec "ab_idx" ++ t := by
  refine ⟨by decide, by decide, ?_⟩
  rintro ⟨t, ht⟩
  have hlen := congrArg String.length ht
  rw [String.length_append] at hlen
  have l1 : (dropRec "ac_idx").length = 64 := by decide
  have l2 : (dropRec "ab_idx").length = 64 := by decide
  rw [l1, l2] at hlen
  have ht0 : t = "" := by
    cases t with
    | mk data =>
      cases data with
      | nil => rfl
      | cons c cs =>
        have hd : (String.mk (c :: cs)).length = cs.length + 1 := by
          simp [String.length]
        rw [hd] at hlen
        omega
  subst ht0
  rw [String.append_empty] at ht
  exact absurd ht (by decide)

/-- C2 witness: the theorem applied to the pass-level prefix triple at the
pair (ac_idx, a_short), with the no-fire hypothesis of the untouched-longer
conjunct discharged by checking every position. -/
theorem redundancy_pass_flags_prefix_witness :
    (∃ b2, ((checkRedundantIndexes c2List).map analyzeIndexProperties)[0]? = some b2 ∧
      b2.isDuplicate = true ∧ redundantMsg "ac_idx" ∈ b2.issues ∧
      ∃ i2 a2 t, c2List[i2]? = some a2 ∧ RedFires c2List i2 0 ∧
        b2.recommendation = dropRec a2.name ++ t) ∧
    (checkRedundantIndexes c2List)[2]? =
      some (plainIndex "ac_idx" [("a", 1), ("c", 1)] 4) := by
  have h := redundancy_pass_flags_prefix c2List 2 0
    (plainIndex "ac_idx" [("a", 1), ("c", 1)] 4) (plainIndex "a_short" [("a", 1)] 4)
    (by decide) (by decide) (by decide) (by decide) (by decide) (by decide)
  refine ⟨h.1, h.2 ?_⟩
  intro i2 hfi
  obtain ⟨a2, b0, ha2, hb0, hne, hxa, hxb, hcond⟩ := hfi
  have hb0e : b0 = plainIndex "ac_idx" [("a", 1), ("c", 1)] 4 := by
    have e : c2List[2]? = some (plainIndex "ac_idx" [("a", 1), ("c", 1)] 4) := by decide
    rw [e] at hb0
    exact (Option.some.inj hb0).symm
  subst hb0e
  rcases i2 with _ | i2
  · have e : c2List[0]? = some (plainIndex "a_short" [("a", 1)] 4) := by decide
    rw [e] at ha2
    have ha2e : a2 = plainIndex "a_short" [("a", 1)] 4 := (Option.some.inj ha2).symm
    subst ha2e
    exact absurd hcond (by decide)
  · rcases i2 with _ | i2
    · have e : c2List[1]? = some (plainIndex "ab_idx" [("a", 1), ("b", 1)] 4) := by decide
      rw [e] at ha2
      have ha2e : a2 = plainIndex "ab_idx" [("a", 1), ("b", 1)] 4 :=
        (Option.some.inj ha2).symm
      subst ha2e
      exact absurd hcond (by decide)
    · rcases i2 with _ | i2
      · exact hne rfl
      · have e : c2List[i2 + 3]? = none := by
          apply List.getElem?_eq_none
          have hl : c2List.length = 3 := rfl
          omega
        rw [e] at ha2
        exact Option.noConfusion ha2
